import Mathlib

/-!
Verification of the ParsFood-Common repository: a shallow embedding of
`src/js/firestore-utils.ts`, `src/plugins/vuex/vuex-decorators.ts`,
`src/js/proxy.ts` and the `FirestoreCollectionsModule`, together with
theorems settling the specification claims about them.

JS arrays become `List`, JS objects become association lists or structures,
in-place mutation becomes explicit state passing, and fallible code returns
`Option`/`Except`.
-/

namespace FirestoreUtils

/-- JS `arr.splice(i, 0, x)`: insert `x` at index `i` (clamped to the length). -/
def spliceInsert (l : List α) (i : Nat) (x : α) : List α :=
  l.take i ++ x :: l.drop i

/-- JS `arr.splice(i, 1)`: delete the element at index `i`, if there is one. -/
def spliceRemove (l : List α) (i : Nat) : List α :=
  l.take i ++ l.drop (i + 1)

/-- JS `arr.splice(i, 1, x)`: delete the element at index `i` (if any) and
insert `x` at that position (at the end when `i` is past the end). -/
def spliceReplace (l : List α) (i : Nat) (x : α) : List α :=
  l.take i ++ x :: l.drop (i + 1)

/-- `FirestoreObjectOptions` from firestore-utils.ts: either a bare collection
path or a record with a path, an optional display name and nested subcollection
options.  The `query` member is an opaque server-side filter and never inspected
by the functions modelled here, so it is omitted. -/
inductive FirestoreObjectOptions where
  | str (path : String)
  | obj (collectionPath : String) (name : Option String)
      (subcollections : List FirestoreObjectOptions)

/-- `NormalizedFirestoreObjectOptions`: collectionPath, name, subcollections. -/
inductive NormOptions where
  | mk (collectionPath : String) (name : String) (subcollections : List NormOptions)

def NormOptions.collectionPath : NormOptions → String
  | .mk p _ _ => p

def NormOptions.name : NormOptions → String
  | .mk _ n _ => n

def NormOptions.subcollections : NormOptions → List NormOptions
  | .mk _ _ s => s

/-- `normalizeFirestoreObjectOptions`: a bare string becomes path = name with no
subcollections; a record defaults its name to the collection path and normalizes
its subcollections recursively. -/
def normalizeFirestoreObjectOptions : FirestoreObjectOptions → NormOptions
  | .str p => .mk p p []
  | .obj cp n subs => .mk cp (n.getD cp) (subs.attach.map fun s =>
      normalizeFirestoreObjectOptions s.1)
decreasing_by
  have := s.2
  simp only [FirestoreObjectOptions.obj.sizeOf_spec]
  calc sizeOf s.1 < sizeOf subs := List.sizeOf_lt_of_mem s.2
    _ < 1 + sizeOf cp + sizeOf n + sizeOf subs := by omega

/-- A cached document as built by `applyDocumentChanges`: an id, opaque plain
fields, and one nested document list per declared subcollection name. -/
inductive Doc : Type where
  | mk (id : String) (fields : List (String × String)) (subs : List (String × List Doc)) : Doc

def Doc.id : Doc → String
  | .mk i _ _ => i

def Doc.fields : Doc → List (String × String)
  | .mk _ f _ => f

/-- Reading `document[name]` where `name` is a subcollection key. -/
def Doc.getSub : Doc → String → Option (List Doc)
  | .mk _ _ subs, n => (subs.find? (fun s => s.1 == n)).map (fun s => s.2)

/-- Writing through the alias obtained from `getObjectFromRefPath`: the nested
array stored under a subcollection key is replaced in place. -/
def Doc.setSub : Doc → String → List Doc → Doc
  | .mk i f subs, n, nl => .mk i f (subs.map (fun s => if s.1 == n then (s.1, nl) else s))

/-- A `DocumentSnapshot`: the document id and the data payload. -/
structure DocSnapshot where
  id : String
  data : List (String × String)

inductive ChangeType where
  | added
  | modified
  | removed
deriving DecidableEq

/-- One entry of `snapshot.docChanges()`. -/
structure DocumentChange where
  type : ChangeType
  doc : DocSnapshot
  oldIndex : Nat
  newIndex : Nat

/-- `applyDocumentChanges`: rebuild the document from the snapshot id and data,
carrying each declared subcollection list over from the previous version of the
document (`[]` when the previous document is null or lacks the key). -/
def applyDocumentChanges (document : Option Doc) (snapshot : DocSnapshot)
    (options : NormOptions) : Doc :=
  .mk snapshot.id snapshot.data
    (options.subcollections.map fun sub =>
      (sub.name,
        match document with
        | some d => (d.getSub sub.name).getD []
        | none => []))

/-- One iteration of the `applyCollectionChanges` loop body. -/
def applyDocChange (collection : List Doc) (c : DocumentChange)
    (options : NormOptions) : List Doc :=
  match c.type with
  | .added => spliceInsert collection c.newIndex (applyDocumentChanges none c.doc options)
  | .modified =>
      let updatedDocument := applyDocumentChanges collection[c.oldIndex]? c.doc options
      if c.oldIndex = c.newIndex then
        spliceReplace collection c.oldIndex updatedDocument
      else
        spliceInsert (spliceRemove collection c.oldIndex) c.newIndex updatedDocument
  | .removed => spliceRemove collection c.oldIndex

/-- `applyCollectionChanges`: fold the loop body over the document changes in
the order the snapshot reports them. -/
def applyCollectionChanges (collection : List Doc) (changes : List DocumentChange)
    (options : NormOptions) : List Doc :=
  changes.foldl (fun l c => applyDocChange l c options) collection

theorem length_spliceInsert (l : List α) (i : Nat) (x : α) (h : i ≤ l.length) :
    (spliceInsert l i x).length = l.length + 1 := by
  simp only [spliceInsert, List.length_append, List.length_take, List.length_cons,
    List.length_drop]
  omega

theorem getElem?_spliceInsert_self (l : List α) (i : Nat) (x : α) (h : i ≤ l.length) :
    (spliceInsert l i x)[i]? = some x := by
  rw [spliceInsert, List.getElem?_append_right (by simp; try omega)]
  simp [Nat.min_eq_left h]

theorem getElem?_spliceInsert_lt (l : List α) (i : Nat) (x : α) (j : Nat) (h : j < i)
    (hi : i ≤ l.length) : (spliceInsert l i x)[j]? = l[j]? := by
  rw [spliceInsert, List.getElem?_append_left (by simp; try omega)]
  exact List.getElem?_take_of_lt h

theorem getElem?_spliceInsert_ge (l : List α) (i : Nat) (x : α) (j : Nat)
    (hi : i ≤ l.length) : (spliceInsert l i x)[i + 1 + j]? = l[i + j]? := by
  rw [spliceInsert, List.getElem?_append_right (by simp; try omega)]
  have hl : (l.take i).length = i := by simp; omega
  rw [hl]
  have : i + 1 + j - i = j + 1 := by omega
  rw [this]
  simp [List.getElem?_drop]

theorem length_spliceRemove (l : List α) (i : Nat) (h : i < l.length) :
    (spliceRemove l i).length + 1 = l.length := by
  simp only [spliceRemove, List.length_append, List.length_take, List.length_drop]
  omega

theorem getElem?_spliceRemove_lt (l : List α) (i j : Nat) (h : j < i) :
    (spliceRemove l i)[j]? = l[j]? := by
  rw [spliceRemove]
  by_cases hj : j < l.length
  · rw [List.getElem?_append_left (by simp; try omega)]
    exact List.getElem?_take_of_lt h
  · rw [List.getElem?_eq_none (by simp; try omega), List.getElem?_eq_none (by simpa using hj)]

theorem getElem?_spliceRemove_ge (l : List α) (i j : Nat) (h : i < l.length) :
    (spliceRemove l i)[i + j]? = l[i + 1 + j]? := by
  rw [spliceRemove, List.getElem?_append_right (by simp; try omega)]
  have hl : (l.take i).length = i := by simp; omega
  rw [hl, List.getElem?_drop]
  try (congr 1; omega)

theorem length_spliceReplace (l : List α) (i : Nat) (x : α) (h : i < l.length) :
    (spliceReplace l i x).length = l.length := by
  simp only [spliceReplace, List.length_append, List.length_take, List.length_cons,
    List.length_drop]
  omega

theorem getElem?_spliceReplace_self (l : List α) (i : Nat) (x : α) (h : i < l.length) :
    (spliceReplace l i x)[i]? = some x := by
  rw [spliceReplace, List.getElem?_append_right (by simp; try omega)]
  simp [Nat.min_eq_left (Nat.le_of_lt h)]

theorem getElem?_spliceReplace_ne (l : List α) (i : Nat) (x : α) (j : Nat) (h : j ≠ i)
    (hi : i < l.length) : (spliceReplace l i x)[j]? = l[j]? := by
  rw [spliceReplace]
  rcases Nat.lt_or_ge j i with hj | hj
  · rw [List.getElem?_append_left (by simp; try omega)]
    exact List.getElem?_take_of_lt hj
  · have hj2 : i < j := Nat.lt_of_le_of_ne hj (fun e => h e.symm)
    by_cases hjl : j < l.length
    · rw [List.getElem?_append_right (by simp; try omega)]
      have hl : (l.take i).length = i := by simp; omega
      rw [hl]
      have he : j - i = (j - i - 1) + 1 := by omega
      rw [he]
      simp [List.getElem?_drop]
      try (congr 1; omega)
    · rw [List.getElem?_eq_none (by simp; try omega), List.getElem?_eq_none (by simpa using hjl)]

theorem spliceInsert_perm (l : List α) (i : Nat) (x : α) :
    List.Perm (spliceInsert l i x) (x :: l) := by
  rw [spliceInsert]
  calc List.Perm (l.take i ++ x :: l.drop i) (x :: (l.take i ++ l.drop i)) := List.perm_middle
    _ = x :: l := by rw [List.take_append_drop]

/-- C1.  Diff application is order-preserving: `applyCollectionChanges`
processes the snapshot's document changes in stream order; an added change
inserts the rebuilt document at the stream-provided `newIndex`; a modified
change with `oldIndex = newIndex` replaces the element in place without
changing the list length; a modified change with `oldIndex ≠ newIndex` splices
the element out at `oldIndex` and re-inserts the updated document at
`newIndex`, leaving the length unchanged with the updated item at `newIndex`
and the rest a permutation of the remaining elements; a removed change deletes
the element at the stream-provided `oldIndex`. -/
theorem applyCollectionChanges_order_preserving :
    (∀ (l : List Doc) (o : NormOptions) (c : DocumentChange) (cs : List DocumentChange),
      applyCollectionChanges l (c :: cs) o = applyCollectionChanges (applyDocChange l c o) cs o)
    ∧
    (∀ (l : List Doc) (o : NormOptions) (d : DocSnapshot) (oi ni : Nat), ni ≤ l.length →
      (applyDocChange l ⟨.added, d, oi, ni⟩ o).length = l.length + 1 ∧
      (applyDocChange l ⟨.added, d, oi, ni⟩ o)[ni]? = some (applyDocumentChanges none d o) ∧
      (∀ j, j < ni → (applyDocChange l ⟨.added, d, oi, ni⟩ o)[j]? = l[j]?) ∧
      (∀ j, (applyDocChange l ⟨.added, d, oi, ni⟩ o)[ni + 1 + j]? = l[ni + j]?))
    ∧
    (∀ (l : List Doc) (o : NormOptions) (d : DocSnapshot) (i : Nat), i < l.length →
      (applyDocChange l ⟨.modified, d, i, i⟩ o).length = l.length ∧
      (applyDocChange l ⟨.modified, d, i, i⟩ o)[i]? = some (applyDocumentChanges l[i]? d o) ∧
      (∀ j, j ≠ i → (applyDocChange l ⟨.modified, d, i, i⟩ o)[j]? = l[j]?))
    ∧
    (∀ (l : List Doc) (o : NormOptions) (d : DocSnapshot) (oi ni : Nat),
      oi ≠ ni → oi < l.length → ni < l.length →
      applyDocChange l ⟨.modified, d, oi, ni⟩ o =
        spliceInsert (spliceRemove l oi) ni (applyDocumentChanges l[oi]? d o) ∧
      (applyDocChange l ⟨.modified, d, oi, ni⟩ o).length = l.length ∧
      (applyDocChange l ⟨.modified, d, oi, ni⟩ o)[ni]? = some (applyDocumentChanges l[oi]? d o) ∧
      List.Perm (applyDocChange l ⟨.modified, d, oi, ni⟩ o)
        (applyDocumentChanges l[oi]? d o :: spliceRemove l oi))
    ∧
    (∀ (l : List Doc) (o : NormOptions) (d : DocSnapshot) (oi ni : Nat), oi < l.length →
      (applyDocChange l ⟨.removed, d, oi, ni⟩ o).length + 1 = l.length ∧
      (∀ j, j < oi → (applyDocChange l ⟨.removed, d, oi, ni⟩ o)[j]? = l[j]?) ∧
      (∀ j, (applyDocChange l ⟨.removed, d, oi, ni⟩ o)[oi + j]? = l[oi + 1 + j]?)) := by
  refine ⟨fun l o c cs => rfl, ?_, ?_, ?_, ?_⟩
  · intro l o d oi ni h
    refine ⟨length_spliceInsert l ni _ h, getElem?_spliceInsert_self l ni _ h,
      fun j hj => getElem?_spliceInsert_lt l ni _ j hj h,
      fun j => getElem?_spliceInsert_ge l ni _ j h⟩
  · intro l o d i h
    have he : applyDocChange l ⟨.modified, d, i, i⟩ o =
        spliceReplace l i (applyDocumentChanges l[i]? d o) := by
      simp [applyDocChange]
    rw [he]
    exact ⟨length_spliceReplace l i _ h, getElem?_spliceReplace_self l i _ h,
      fun j hj => getElem?_spliceReplace_ne l i _ j hj h⟩
  · intro l o d oi ni hne hoi hni
    have he : applyDocChange l ⟨.modified, d, oi, ni⟩ o =
        spliceInsert (spliceRemove l oi) ni (applyDocumentChanges l[oi]? d o) := by
      simp [applyDocChange, hne]
    have hlen : (spliceRemove l oi).length + 1 = l.length := length_spliceRemove l oi hoi
    have hni2 : ni ≤ (spliceRemove l oi).length := by omega
    refine ⟨he, ?_, ?_, ?_⟩
    · rw [he, length_spliceInsert _ _ _ hni2]
      omega
    · rw [he]
      exact getElem?_spliceInsert_self _ _ _ hni2
    · rw [he]
      exact spliceInsert_perm _ _ _
  · intro l o d oi ni h
    refine ⟨length_spliceRemove l oi h, fun j hj => getElem?_spliceRemove_lt l oi j hj,
      fun j => getElem?_spliceRemove_ge l oi j h⟩

/-- Concrete check that the hypotheses of the C1 theorem are satisfiable: a
two-element list with a moved `modified` change at indices 0 and 1. -/
theorem applyCollectionChanges_order_preserving_witness :
    (applyDocChange [Doc.mk "a" [] [], Doc.mk "b" [] []]
        ⟨.modified, ⟨"a", [("f", "v")]⟩, 0, 1⟩ (.mk "c" "c" [])).length = 2 ∧
    (applyDocChange [Doc.mk "a" [] [], Doc.mk "b" [] []]
        ⟨.modified, ⟨"a", [("f", "v")]⟩, 0, 1⟩ (.mk "c" "c" []))[1]? =
      some (applyDocumentChanges [Doc.mk "a" [] [], Doc.mk "b" [] []][0]?
        ⟨"a", [("f", "v")]⟩ (.mk "c" "c" [])) := by
  have h := applyCollectionChanges_order_preserving.2.2.2.1
    [Doc.mk "a" [] [], Doc.mk "b" [] []] (.mk "c" "c" []) ⟨"a", [("f", "v")]⟩ 0 1
    (by decide) (by simp) (by simp)
  exact ⟨h.2.1, h.2.2.1⟩

/-- The document-lookup loop inside `getObjectFromRefPath`: scan the list for
the first document whose id equals the ref segment, returning its index and the
document itself. -/
def findDocIdx : List Doc → String → Option (Nat × Doc)
  | [], _ => none
  | d :: rest, ref =>
    if d.id == ref then some (0, d)
    else (findDocIdx rest ref).map (fun p => (p.1 + 1, p.2))

/-- The outcome of `getObjectFromRefPath` on a collection.  `thrown` is the JS
`TypeError` raised when a subcollection segment matches none of the declared
subcollection options (the non-null assertion on `find` fails); `nullResult` is
the explicit `return null`; `docTarget` is a resolution ending on a document
(odd ref path); `collTarget` records the rebuild path (document index and
subcollection name per consumed segment pair), the addressed nested list, and
the options in force there. -/
inductive RefResolution where
  | thrown
  | nullResult
  | docTarget (i : Nat) (d : Doc)
  | collTarget (steps : List (Nat × String)) (target : List Doc) (opts : NormOptions)

/-- `getObjectFromRefPath` with `isCollection = true`: alternate document-id
and subcollection-path segments, failing with `nullResult` when an id matches
no document or the addressed subcollection field is absent. -/
def resolveRefPath (collection : List Doc) (options : NormOptions) :
    List String → RefResolution
  | [] => .collTarget [] collection options
  | [ref] =>
    match findDocIdx collection ref with
    | none => .nullResult
    | some (i, d) => .docTarget i d
  | ref :: sub :: rest =>
    match findDocIdx collection ref with
    | none => .nullResult
    | some (i, d) =>
      match options.subcollections.find? (fun o => o.collectionPath == sub) with
      | none => .thrown
      | some subOpts =>
        match d.getSub subOpts.name with
        | none => .nullResult
        | some subColl =>
          match resolveRefPath subColl subOpts rest with
          | .collTarget steps target o2 => .collTarget ((i, subOpts.name) :: steps) target o2
          | r => r

/-- Replace the element at index `i` (no-op when out of range). -/
def modifyIdx (l : List α) (i : Nat) (f : α → α) : List α :=
  match l, i with
  | [], _ => []
  | x :: rest, 0 => f x :: rest
  | x :: rest, i + 1 => x :: modifyIdx rest i f

/-- The in-place mutation performed through the alias returned by
`getObjectFromRefPath`, rendered as a functional rebuild along the recorded
steps. -/
def setAtSteps : List Doc → List (Nat × String) → List Doc → List Doc
  | _, [], newList => newList
  | coll, (i, n) :: rest, newList =>
    modifyIdx coll i (fun d => d.setSub n (setAtSteps ((d.getSub n).getD []) rest newList))

/-- `updateCollectionFromSnapshot` from firestore-utils.ts: resolve the ref
path; on `null` return the collection untouched; otherwise apply the
collection changes to the addressed nested list.  A resolution that ends on a
document would make the code call `splice` on a plain object, which throws
unless the snapshot carries no changes. -/
def updateCollectionFromSnapshot (collection : List Doc) (options : FirestoreObjectOptions)
    (refPath : List String) (snapshot : List DocumentChange) : Except Unit (List Doc) :=
  let normalizedOptions := normalizeFirestoreObjectOptions options
  match resolveRefPath collection normalizedOptions refPath with
  | .thrown => .error ()
  | .nullResult => .ok collection
  | .docTarget _ _ => if snapshot.isEmpty then .ok collection else .error ()
  | .collTarget steps target opts =>
    .ok (setAtSteps collection steps (applyCollectionChanges target snapshot opts))

/-- C10.  If the reference path does not resolve against the list — a
document-id segment matches no document's id in the addressed list, or a named
subcollection field is absent from the addressed document — then
`getObjectFromRefPath` returns null and `updateCollectionFromSnapshot` returns
the input collection completely unchanged, performing no splice or field
update anywhere in the tree. -/
theorem updateCollectionFromSnapshot_unresolved_unchanged :
    (∀ (coll : List Doc) (opts : NormOptions) (ref : String) (rest : List String),
      findDocIdx coll ref = none → resolveRefPath coll opts (ref :: rest) = .nullResult)
    ∧
    (∀ (coll : List Doc) (opts : NormOptions) (ref sub : String) (rest : List String)
      (i : Nat) (d : Doc) (subOpts : NormOptions),
      findDocIdx coll ref = some (i, d) →
      opts.subcollections.find? (fun o => o.collectionPath == sub) = some subOpts →
      d.getSub subOpts.name = none →
      resolveRefPath coll opts (ref :: sub :: rest) = .nullResult)
    ∧
    (∀ (coll : List Doc) (options : FirestoreObjectOptions) (refPath : List String)
      (snapshot : List DocumentChange),
      resolveRefPath coll (normalizeFirestoreObjectOptions options) refPath = .nullResult →
      updateCollectionFromSnapshot coll options refPath snapshot = .ok coll) := by
  refine ⟨?_, ?_, ?_⟩
  · intro coll opts ref rest h
    cases rest <;> simp [resolveRefPath, h]
  · intro coll opts ref sub rest i d subOpts h1 h2 h3
    simp [resolveRefPath, h1, h2, h3]
  · intro coll options refPath snapshot h
    simp [updateCollectionFromSnapshot, h]

/-- Concrete check for C10: a ref path pointing at a missing document id in an
empty cached list leaves the collection untouched even though the snapshot
carries an added change. -/
theorem updateCollectionFromSnapshot_unresolved_unchanged_witness :
    updateCollectionFromSnapshot [] (.str "c") ["x"]
      [⟨.added, ⟨"d", []⟩, 0, 0⟩] = .ok [] :=
  updateCollectionFromSnapshot_unresolved_unchanged.2.2 [] (.str "c") ["x"]
    [⟨.added, ⟨"d", []⟩, 0, 0⟩] (by rfl)

end FirestoreUtils

/-- JS plain objects used as string-keyed dictionaries, as association lists:
lookup of a key. -/
def alistGet (m : List (String × β)) (k : String) : Option β :=
  (m.find? (fun p => p.1 == k)).map (fun p => p.2)

/-- Property assignment `m[k] = v`: replace the value in place when the key
exists, append the key otherwise (JS preserves insertion order). -/
def alistSet (m : List (String × β)) (k : String) (v : β) : List (String × β) :=
  if m.any (fun p => p.1 == k) then
    m.map (fun p => if p.1 == k then (p.1, v) else p)
  else
    m ++ [(k, v)]

/-- `delete m[k]`. -/
def alistDel (m : List (String × β)) (k : String) : List (String × β) :=
  m.filter (fun p => p.1 != k)

theorem alistKey_set_entry (p : String × β) (k : String) (v : β) :
    (if p.1 == k then (p.1, v) else p).1 = p.1 := by
  split <;> rfl

theorem alistGet_map_set_other (m : List (String × β)) (k k2 : String) (v : β)
    (h : (k == k2) = false) :
    alistGet (m.map (fun p => if p.1 == k then (p.1, v) else p)) k2 = alistGet m k2 := by
  induction m with
  | nil => rfl
  | cons q rest ih =>
    cases hq2 : q.1 == k2 with
    | false =>
      rw [List.map_cons]
      unfold alistGet
      rw [List.find?_cons_of_neg _ (by rw [alistKey_set_entry]; simp [hq2]),
        List.find?_cons_of_neg _ (by simp [hq2])]
      exact ih
    | true =>
      have hqk : (q.1 == k) = false := by
        have e2 : q.1 = k2 := by simpa using hq2
        cases he : q.1 == k
        · rfl
        · have e : q.1 = k := by simpa using he
          rw [e2] at e
          exact absurd e.symm (by simpa using h)
      rw [List.map_cons, if_neg (by simp [hqk])]
      unfold alistGet
      rw [List.find?_cons_of_pos _ (by simp [hq2]), List.find?_cons_of_pos _ (by simp [hq2])]

theorem alistGet_append_single_other (m : List (String × β)) (k k2 : String) (v : β)
    (h : (k == k2) = false) :
    alistGet (m ++ [(k, v)]) k2 = alistGet m k2 := by
  induction m with
  | nil =>
    unfold alistGet
    rw [List.nil_append, List.find?_cons_of_neg _ (by simp [h])]
  | cons q rest ih =>
    cases hq2 : q.1 == k2 with
    | false =>
      rw [List.cons_append]
      unfold alistGet
      rw [List.find?_cons_of_neg _ (by simp [hq2]), List.find?_cons_of_neg _ (by simp [hq2])]
      exact ih
    | true =>
      rw [List.cons_append]
      unfold alistGet
      rw [List.find?_cons_of_pos _ (by simp [hq2]), List.find?_cons_of_pos _ (by simp [hq2])]

theorem alistSet_cons_of_key_ne (q : String × β) (rest : List (String × β)) (k : String)
    (v : β) (hq : (q.1 == k) = false) :
    alistSet (q :: rest) k v = q :: alistSet rest k v := by
  cases hA : rest.any (fun p => p.1 == k) with
  | true =>
    simp only [alistSet, List.any_cons, hq, Bool.false_or, hA, if_true, List.map_cons]
    rw [if_neg (by simp [hq])]
  | false =>
    simp only [alistSet, List.any_cons, hq, Bool.false_or, hA, List.cons_append]
    rfl

theorem alistGet_alistSet_same (m : List (String × β)) (k : String) (v : β) :
    alistGet (alistSet m k v) k = some v := by
  induction m with
  | nil =>
    unfold alistSet alistGet
    rw [List.any_nil, if_neg (by simp), List.nil_append,
      List.find?_cons_of_pos _ (by simp)]
    rfl
  | cons q rest ih =>
    cases hq : q.1 == k with
    | true =>
      unfold alistSet
      rw [if_pos (by simp [List.any_cons, hq]), List.map_cons, if_pos (by simp [hq])]
      unfold alistGet
      rw [List.find?_cons_of_pos _ (by simp [hq])]
      rfl
    | false =>
      rw [alistSet_cons_of_key_ne q rest k v hq]
      unfold alistGet
      rw [List.find?_cons_of_neg _ (by simp [hq])]
      exact ih

theorem alistGet_alistSet_other (m : List (String × β)) (k k2 : String) (v : β)
    (h : k2 ≠ k) : alistGet (alistSet m k v) k2 = alistGet m k2 := by
  have hkk : (k == k2) = false := by
    cases he : k == k2
    · rfl
    · exact absurd (by simpa using he : k = k2).symm h
  unfold alistSet
  split
  · exact alistGet_map_set_other m k k2 v hkk
  · exact alistGet_append_single_other m k k2 v hkk

theorem alistGet_alistDel_same (m : List (String × β)) (k : String) :
    alistGet (alistDel m k) k = none := by
  induction m with
  | nil => rfl
  | cons q rest ih =>
    cases hq : q.1 == k with
    | true =>
      have e : q.1 = k := by simpa using hq
      unfold alistDel
      rw [List.filter_cons_of_neg (by simp [e])]
      exact ih
    | false =>
      have e : ¬q.1 = k := by simpa using hq
      unfold alistDel
      rw [List.filter_cons_of_pos (by simp [e])]
      unfold alistGet
      rw [List.find?_cons_of_neg _ (by simp [hq])]
      exact ih

theorem alistGet_alistDel_other (m : List (String × β)) (k k2 : String) (h : k2 ≠ k) :
    alistGet (alistDel m k) k2 = alistGet m k2 := by
  induction m with
  | nil => rfl
  | cons q rest ih =>
    cases hq : q.1 == k with
    | true =>
      have e : q.1 = k := by simpa using hq
      have hq2 : (q.1 == k2) = false := by
        cases he : q.1 == k2
        · rfl
        · have e2 : q.1 = k2 := by simpa using he
          rw [e] at e2
          exact absurd e2.symm h
      unfold alistDel
      rw [List.filter_cons_of_neg (by simp [e])]
      unfold alistGet
      rw [List.find?_cons_of_neg _ (by simp [hq2])]
      exact ih
    | false =>
      cases hq2 : q.1 == k2 with
      | false =>
        have e : ¬q.1 = k := by simpa using hq
        unfold alistDel
        rw [List.filter_cons_of_pos (by simp [e])]
        unfold alistGet
        rw [List.find?_cons_of_neg _ (by simp [hq2]), List.find?_cons_of_neg _ (by simp [hq2])]
        exact ih
      | true =>
        have e : ¬q.1 = k := by simpa using hq
        unfold alistDel
        rw [List.filter_cons_of_pos (by simp [e])]
        unfold alistGet
        rw [List.find?_cons_of_pos _ (by simp [hq2]), List.find?_cons_of_pos _ (by simp [hq2])]

namespace FCModule

open FirestoreUtils

/-- `CollectionSyncedList<T>` from the FirestoreCollectionsModule state. -/
structure CollectionSyncedList where
  list : List Doc
  syncEnabled : Bool
  syncing : Bool

/-- `CollectionsInfo`: per-path bookkeeping.  Subscribers are identified by
opaque tokens; the stored unsubscribe closures are modelled by their
presence. -/
structure CollectionsInfo where
  firstSync : Bool
  collectionSubscribers : List Nat
  hasUnsubscribeFromSync : Bool
  hasUnsubscribeFromCollectionOptions : Bool

/-- The module's mutable state: the `collections` record and the non-store
`collectionsInfo` record. -/
structure ModState where
  collections : List (String × CollectionSyncedList)
  collectionsInfo : List (String × CollectionsInfo)

/-- Observable side effects on the remote connection: opening the snapshot
listener in `startCollectionSync`, and tearing it down in
`stopCollectionSync`. -/
inductive SyncEv where
  | startedSync (path : String)
  | stoppedSync (path : String)
deriving DecidableEq

def setColl (s : ModState) (p : String) (c : CollectionSyncedList) : ModState :=
  { s with collections := alistSet s.collections p c }

def setInfo (s : ModState) (p : String) (i : CollectionsInfo) : ModState :=
  { s with collectionsInfo := alistSet s.collectionsInfo p i }

/-- The `createCollection` mutation. -/
def createCollection (s : ModState) (p : String) : ModState :=
  { collectionsInfo := alistSet s.collectionsInfo p
      { firstSync := false, collectionSubscribers := [],
        hasUnsubscribeFromSync := false, hasUnsubscribeFromCollectionOptions := false },
    collections := alistSet s.collections p
      { list := [], syncEnabled := false, syncing := false } }

/-- The `setSyncStatus` mutation: update the flags when the collection exists,
deleting both records when `resetCollection` is set. -/
def setSyncStatus (s : ModState) (p : String) (enabled syncing resetCollection : Bool) :
    ModState :=
  match alistGet s.collections p with
  | none => s
  | some c =>
    let s1 := setColl s p { c with syncEnabled := enabled, syncing := syncing }
    if resetCollection then
      { collections := alistDel s1.collections p,
        collectionsInfo := alistDel s1.collectionsInfo p }
    else s1

/-- The `clearCollectionSubscribers` mutation. -/
def clearCollectionSubscribers (s : ModState) (p : String) : ModState :=
  match alistGet s.collectionsInfo p with
  | none => s
  | some i => setInfo s p { i with collectionSubscribers := [] }

/-- `stopCollectionSync`: when the path is enabled, call and drop both stored
unsubscribe closures and clear the flags via `setSyncStatus`.  Returns `none`
where the JS would throw (info record missing while the collection is
enabled); the event list records the remote-listener teardown. -/
def stopCollectionSync (s : ModState) (p : String) (resetCollection : Bool) :
    Option (ModState × List SyncEv) :=
  match alistGet s.collections p with
  | none => some (s, [])
  | some c =>
    if c.syncEnabled then
      match alistGet s.collectionsInfo p with
      | none => none
      | some i =>
        let evs := if i.hasUnsubscribeFromSync then [SyncEv.stoppedSync p] else []
        let s1 := setInfo s p
          { i with hasUnsubscribeFromSync := false,
                   hasUnsubscribeFromCollectionOptions := false }
        some (setSyncStatus s1 p false false resetCollection, evs)
    else some (s, [])

/-- `startCollectionSync`: create the collection when absent; when not yet
enabled, set `firstSync`, open the remote listener and mark the path enabled
and syncing; in every case (re-)install the collection-options watch. -/
def startCollectionSync (s : ModState) (p : String) : Option (ModState × List SyncEv) :=
  let s0 := if (alistGet s.collections p).isNone then createCollection s p else s
  match alistGet s0.collections p, alistGet s0.collectionsInfo p with
  | some c, some i =>
    if c.syncEnabled then
      some (setInfo s0 p { i with hasUnsubscribeFromCollectionOptions := true }, [])
    else
      let s1 := setInfo s0 p { i with firstSync := true, hasUnsubscribeFromSync := true }
      let s2 := setSyncStatus s1 p true true false
      let s3 :=
        match alistGet s2.collectionsInfo p with
        | some i2 => setInfo s2 p { i2 with hasUnsubscribeFromCollectionOptions := true }
        | none => s2
      some (s3, [SyncEv.startedSync p])
  | _, _ => none

/-- `syncCollection`: start sync when the collection is absent, disabled, or
has no subscribers, then push the new subscriber token.  `none` models the JS
`TypeError`s on a missing info record. -/
def syncCollection (s : ModState) (p : String) (subscriber : Nat) :
    Option (ModState × List SyncEv) :=
  let needStart : Option Bool :=
    match alistGet s.collections p with
    | none => some true
    | some c =>
      if !c.syncEnabled then some true
      else
        match alistGet s.collectionsInfo p with
        | none => none
        | some i => some i.collectionSubscribers.isEmpty
  match needStart with
  | none => none
  | some b =>
    match (if b then startCollectionSync s p else some (s, [])) with
    | none => none
    | some (s1, evs) =>
      match alistGet s1.collectionsInfo p with
      | none => none
      | some i =>
        some (setInfo s1 p
          { i with collectionSubscribers := i.collectionSubscribers ++ [subscriber] }, evs)

/-- The body of the debounced unsubscribe timer: remove the first occurrence
of the subscriber token and stop sync when no subscriber remains. -/
def fireUnsubscribeTimer (s : ModState) (p : String) (subscriber : Nat) :
    Option (ModState × List SyncEv) :=
  match alistGet s.collectionsInfo p with
  | none => some (s, [])
  | some i =>
    let subs := i.collectionSubscribers.erase subscriber
    let s1 := setInfo s p { i with collectionSubscribers := subs }
    if subs.isEmpty then stopCollectionSync s1 p false else some (s1, [])

/-- The `updateCollectionFromSnapshot` mutation of the module: diff against
the empty list while `firstSync` is set, against the cached list otherwise;
clear `firstSync` and `syncing`.  The options used are
`mapCollectionOptions(collectionPath)`, which defaults to the path string. -/
def updateFromSnapshotMut (s : ModState) (p : String) (refPath : List String)
    (snapshot : List DocumentChange) : Option ModState :=
  match alistGet s.collections p with
  | none => some s
  | some c =>
    match alistGet s.collectionsInfo p with
    | none => none
    | some i =>
      match FirestoreUtils.updateCollectionFromSnapshot
          (if i.firstSync then [] else c.list) (.str p) refPath snapshot with
      | .error _ => none
      | .ok newList =>
        some (setColl (setInfo s p { i with firstSync := false }) p
          { c with list := newList, syncing := false })

/-- The error callback installed by `startCollectionSync`: capture the current
info record, stop sync, then notify the captured subscribers and clear the
subscriber list.  The third component lists the subscriber tokens whose
`onError` callback is invoked. -/
def onSyncError (s : ModState) (p : String) :
    Option (ModState × List SyncEv × List Nat) :=
  let info0 := alistGet s.collectionsInfo p
  match stopCollectionSync s p false with
  | none => none
  | some (s1, evs) =>
    match info0 with
    | none => some (s1, evs, [])
    | some i => some (clearCollectionSubscribers s1 p, evs, i.collectionSubscribers)

@[simp] theorem collections_setInfo (s : ModState) (p : String) (i : CollectionsInfo) :
    (setInfo s p i).collections = s.collections := rfl

@[simp] theorem collectionsInfo_setInfo (s : ModState) (p : String) (i : CollectionsInfo) :
    (setInfo s p i).collectionsInfo = alistSet s.collectionsInfo p i := rfl

@[simp] theorem collections_setColl (s : ModState) (p : String) (c : CollectionSyncedList) :
    (setColl s p c).collections = alistSet s.collections p c := rfl

@[simp] theorem collectionsInfo_setColl (s : ModState) (p : String) (c : CollectionSyncedList) :
    (setColl s p c).collectionsInfo = s.collectionsInfo := rfl

@[simp] theorem collections_createCollection (s : ModState) (p : String) :
    (createCollection s p).collections =
      alistSet s.collections p { list := [], syncEnabled := false, syncing := false } := rfl

@[simp] theorem collectionsInfo_createCollection (s : ModState) (p : String) :
    (createCollection s p).collectionsInfo =
      alistSet s.collectionsInfo p
        { firstSync := false, collectionSubscribers := [],
          hasUnsubscribeFromSync := false,
          hasUnsubscribeFromCollectionOptions := false } := rfl

/-- C2.  First-load semantics: `startCollectionSync` (on a missing or disabled
collection) sets the per-path `firstSync` flag while opening the remote
listener; the `updateCollectionFromSnapshot` mutation diffs against the empty
list while `firstSync` is set and against the cached list afterwards, and in
both cases applying an event clears `firstSync` and sets `syncing` to
false. -/
theorem firstSync_first_load :
    (∀ (s : ModState) (p : String),
      alistGet s.collections p = none →
      (startCollectionSync s p).map
          (fun r => (alistGet r.1.collections p, alistGet r.1.collectionsInfo p, r.2)) =
        some (some { list := [], syncEnabled := true, syncing := true },
          some { firstSync := true, collectionSubscribers := [],
                 hasUnsubscribeFromSync := true,
                 hasUnsubscribeFromCollectionOptions := true },
          [SyncEv.startedSync p]))
    ∧
    (∀ (s : ModState) (p : String) (c : CollectionSyncedList) (i : CollectionsInfo),
      alistGet s.collections p = some c → alistGet s.collectionsInfo p = some i →
      c.syncEnabled = false →
      (startCollectionSync s p).map
          (fun r => (alistGet r.1.collections p, alistGet r.1.collectionsInfo p, r.2)) =
        some (some { c with syncEnabled := true, syncing := true },
          some { firstSync := true, collectionSubscribers := i.collectionSubscribers,
                 hasUnsubscribeFromSync := true,
                 hasUnsubscribeFromCollectionOptions := true },
          [SyncEv.startedSync p]))
    ∧
    (∀ (s : ModState) (p : String) (refPath : List String)
      (changes : List DocumentChange) (c : CollectionSyncedList) (i : CollectionsInfo)
      (newList : List Doc),
      alistGet s.collections p = some c → alistGet s.collectionsInfo p = some i →
      i.firstSync = true →
      FirestoreUtils.updateCollectionFromSnapshot [] (.str p) refPath changes = .ok newList →
      (updateFromSnapshotMut s p refPath changes).map
          (fun s1 => (alistGet s1.collections p, alistGet s1.collectionsInfo p)) =
        some (some { c with list := newList, syncing := false },
              some { i with firstSync := false }))
    ∧
    (∀ (s : ModState) (p : String) (refPath : List String)
      (changes : List DocumentChange) (c : CollectionSyncedList) (i : CollectionsInfo)
      (newList : List Doc),
      alistGet s.collections p = some c → alistGet s.collectionsInfo p = some i →
      i.firstSync = false →
      FirestoreUtils.updateCollectionFromSnapshot c.list (.str p) refPath changes = .ok newList →
      (updateFromSnapshotMut s p refPath changes).map
          (fun s1 => (alistGet s1.collections p, alistGet s1.collectionsInfo p)) =
        some (some { c with list := newList, syncing := false },
              some { i with firstSync := false })) := by
  refine ⟨?_, ?_, ?_, ?_⟩
  · intro s p hc
    simp [startCollectionSync, hc, setSyncStatus, alistGet_alistSet_same]
  · intro s p c i hc hi hce
    simp [startCollectionSync, hc, hi, hce, setSyncStatus, alistGet_alistSet_same]
  · intro s p refPath changes c i newList hc hi hfs hupd
    simp [updateFromSnapshotMut, hc, hi, hfs, hupd, alistGet_alistSet_same]
  · intro s p refPath changes c i newList hc hi hfs hupd
    simp [updateFromSnapshotMut, hc, hi, hfs, hupd, alistGet_alistSet_same]

/-- Concrete check for C2: starting sync on a fresh path and applying a
first event with one added document builds the list from that event alone. -/
theorem firstSync_first_load_witness :
    ((startCollectionSync { collections := [], collectionsInfo := [] } "users").map
        (fun r => (alistGet r.1.collections "users", alistGet r.1.collectionsInfo "users",
          r.2)) =
      some (some { list := [], syncEnabled := true, syncing := true },
        some { firstSync := true, collectionSubscribers := [],
               hasUnsubscribeFromSync := true,
               hasUnsubscribeFromCollectionOptions := true },
        [SyncEv.startedSync "users"]))
    ∧
    ((updateFromSnapshotMut
          { collections := [("users",
              { list := [Doc.mk "stale" [] []], syncEnabled := true, syncing := true })],
            collectionsInfo := [("users",
              { firstSync := true, collectionSubscribers := [7],
                hasUnsubscribeFromSync := true,
                hasUnsubscribeFromCollectionOptions := true })] }
          "users" [] [⟨.added, ⟨"u1", []⟩, 0, 0⟩]).map
        (fun s1 => (alistGet s1.collections "users", alistGet s1.collectionsInfo "users")) =
      some (some { list := [Doc.mk "u1" [] []], syncEnabled := true, syncing := false },
            some { firstSync := false, collectionSubscribers := [7],
                   hasUnsubscribeFromSync := true,
                   hasUnsubscribeFromCollectionOptions := true })) := by
  constructor
  · exact firstSync_first_load.1 { collections := [], collectionsInfo := [] } "users" (by rfl)
  · exact firstSync_first_load.2.2.1
      { collections := [("users",
          { list := [Doc.mk "stale" [] []], syncEnabled := true, syncing := true })],
        collectionsInfo := [("users",
          { firstSync := true, collectionSubscribers := [7],
            hasUnsubscribeFromSync := true,
            hasUnsubscribeFromCollectionOptions := true })] }
      "users" [] [⟨.added, ⟨"u1", []⟩, 0, 0⟩]
      { list := [Doc.mk "stale" [] []], syncEnabled := true, syncing := true }
      { firstSync := true, collectionSubscribers := [7],
        hasUnsubscribeFromSync := true, hasUnsubscribeFromCollectionOptions := true }
      [Doc.mk "u1" [] []] (by rfl) (by rfl) (by rfl)
      (by simp [updateCollectionFromSnapshot, normalizeFirestoreObjectOptions, resolveRefPath,
        setAtSteps, applyCollectionChanges, applyDocChange, applyDocumentChanges, spliceInsert,
        NormOptions.subcollections, NormOptions.name])

/-- C3.  On a remote stream error, sync for the path is stopped: the remote
listener and the options watch are dropped, `syncEnabled` and `syncing` become
false, the cached list is retained, every subscriber that was active at the
time of the error is notified, and the subscriber list is cleared; entries for
every other path are untouched. -/
theorem onSyncError_stops_and_notifies :
    ∀ (s : ModState) (p : String) (c : CollectionSyncedList) (i : CollectionsInfo),
      alistGet s.collections p = some c → alistGet s.collectionsInfo p = some i →
      c.syncEnabled = true →
      (onSyncError s p).map
          (fun r => (alistGet r.1.collections p, alistGet r.1.collectionsInfo p,
            r.2.1, r.2.2)) =
        some (some { list := c.list, syncEnabled := false, syncing := false },
          some { firstSync := i.firstSync, collectionSubscribers := [],
                 hasUnsubscribeFromSync := false,
                 hasUnsubscribeFromCollectionOptions := false },
          (if i.hasUnsubscribeFromSync then [SyncEv.stoppedSync p] else []),
          i.collectionSubscribers) ∧
      (∀ q, q ≠ p →
        (onSyncError s p).map
            (fun r => (alistGet r.1.collections q, alistGet r.1.collectionsInfo q)) =
          some (alistGet s.collections q, alistGet s.collectionsInfo q)) := by
  intro s p c i hc hi hce
  constructor
  · simp [onSyncError, stopCollectionSync, hc, hi, hce, setSyncStatus,
      clearCollectionSubscribers, alistGet_alistSet_same]
  · intro q hq
    simp [onSyncError, stopCollectionSync, hc, hi, hce, setSyncStatus,
      clearCollectionSubscribers, alistGet_alistSet_same, alistGet_alistSet_other _ _ _ _ hq]

/-- Concrete check for C3: an enabled path with one subscriber and a cached
document keeps its list, loses its handles and subscribers, and the subscriber
is notified. -/
theorem onSyncError_stops_and_notifies_witness :
    (onSyncError
        { collections := [("users",
            { list := [Doc.mk "u1" [] []], syncEnabled := true, syncing := false })],
          collectionsInfo := [("users",
            { firstSync := false, collectionSubscribers := [3],
              hasUnsubscribeFromSync := true,
              hasUnsubscribeFromCollectionOptions := true })] } "users").map
        (fun r => (alistGet r.1.collections "users", alistGet r.1.collectionsInfo "users",
          r.2.1, r.2.2)) =
      some (some { list := [Doc.mk "u1" [] []], syncEnabled := false, syncing := false },
        some { firstSync := false, collectionSubscribers := [],
               hasUnsubscribeFromSync := false,
               hasUnsubscribeFromCollectionOptions := false },
        [SyncEv.stoppedSync "users"], [3]) := by
  have h := onSyncError_stops_and_notifies
    { collections := [("users",
        { list := [Doc.mk "u1" [] []], syncEnabled := true, syncing := false })],
      collectionsInfo := [("users",
        { firstSync := false, collectionSubscribers := [3],
          hasUnsubscribeFromSync := true,
          hasUnsubscribeFromCollectionOptions := true })] } "users"
    { list := [Doc.mk "u1" [] []], syncEnabled := true, syncing := false }
    { firstSync := false, collectionSubscribers := [3],
      hasUnsubscribeFromSync := true, hasUnsubscribeFromCollectionOptions := true }
    (by rfl) (by rfl) (by rfl)
  simpa using h.1

/-- Interleaved subscriber-side events on one path: a `syncCollection` call,
or the firing of the debounced timer scheduled by a returned unsubscribe
function. -/
inductive Op where
  | sub (id : Nat)
  | fire (id : Nat)

/-- Dispatch one subscriber event. -/
def opStep (s : ModState) (p : String) : Op → Option (ModState × List SyncEv)
  | .sub id => syncCollection s p id
  | .fire id => fireUnsubscribeTimer s p id

/-- Run a sequence of subscriber events, collecting the remote-connection
events they produce. -/
def runOps (s : ModState) (p : String) : List Op → Option (ModState × List SyncEv)
  | [] => some (s, [])
  | op :: rest =>
    match opStep s p op with
    | none => none
    | some (s1, evs) =>
      match runOps s1 p rest with
      | none => none
      | some (s2, evs2) => some (s2, evs ++ evs2)

/-- The state of a path that was started by a first `syncCollection` call and
has seen no snapshot yet: enabled, syncing, `firstSync` pending, both handles
installed, and subscriber tokens `L`. -/
def SyncActive (s : ModState) (p : String) (L : List Nat) : Prop :=
  alistGet s.collections p = some { list := [], syncEnabled := true, syncing := true } ∧
  alistGet s.collectionsInfo p =
    some { firstSync := true, collectionSubscribers := L,
           hasUnsubscribeFromSync := true, hasUnsubscribeFromCollectionOptions := true }

theorem isEmpty_eq_false_of_ne_nil {L : List Nat} (h : L ≠ []) : L.isEmpty = false := by
  cases L with
  | nil => exact absurd rfl h
  | cons a t => rfl

theorem syncCollection_first_obs (s : ModState) (p : String) (id : Nat)
    (hc : alistGet s.collections p = none) :
    (syncCollection s p id).map
        (fun r => (alistGet r.1.collections p, alistGet r.1.collectionsInfo p, r.2)) =
      some (some { list := [], syncEnabled := true, syncing := true },
        some { firstSync := true, collectionSubscribers := [id],
               hasUnsubscribeFromSync := true,
               hasUnsubscribeFromCollectionOptions := true },
        [SyncEv.startedSync p]) := by
  simp [syncCollection, startCollectionSync, hc, setSyncStatus, alistGet_alistSet_same]

theorem syncActive_syncCollection_first (s : ModState) (p : String) (id : Nat)
    (hc : alistGet s.collections p = none) :
    ∃ s1, syncCollection s p id = some (s1, [SyncEv.startedSync p]) ∧
      SyncActive s1 p [id] := by
  have hobs := syncCollection_first_obs s p id hc
  cases hrun : syncCollection s p id with
  | none => rw [hrun] at hobs; exact absurd hobs (by simp)
  | some r =>
    rw [hrun] at hobs
    obtain ⟨s1, evs⟩ := r
    simp at hobs
    exact ⟨s1, by simp [hrun, hobs.2.2], ⟨hobs.1, hobs.2.1⟩⟩

theorem syncCollection_active (s : ModState) (p : String) (L : List Nat) (id : Nat)
    (h : SyncActive s p L) (hL : L ≠ []) :
    syncCollection s p id =
      some (setInfo s p
        { firstSync := true, collectionSubscribers := L ++ [id],
          hasUnsubscribeFromSync := true, hasUnsubscribeFromCollectionOptions := true },
        []) := by
  simp [syncCollection, h.1, h.2, isEmpty_eq_false_of_ne_nil hL]

theorem syncActive_syncCollection (s : ModState) (p : String) (L : List Nat) (id : Nat)
    (h : SyncActive s p L) (hL : L ≠ []) :
    ∃ s1, syncCollection s p id = some (s1, []) ∧ SyncActive s1 p (L ++ [id]) := by
  refine ⟨_, syncCollection_active s p L id h hL, h.1, ?_⟩
  simp [alistGet_alistSet_same]

theorem fireTimer_active (s : ModState) (p : String) (L : List Nat) (id : Nat)
    (h : SyncActive s p L) (hL : L.erase id ≠ []) :
    fireUnsubscribeTimer s p id =
      some (setInfo s p
        { firstSync := true, collectionSubscribers := L.erase id,
          hasUnsubscribeFromSync := true, hasUnsubscribeFromCollectionOptions := true },
        []) := by
  simp [fireUnsubscribeTimer, h.2, isEmpty_eq_false_of_ne_nil hL]

theorem syncActive_fireTimer (s : ModState) (p : String) (L : List Nat) (id : Nat)
    (h : SyncActive s p L) (hL : L.erase id ≠ []) :
    ∃ s1, fireUnsubscribeTimer s p id = some (s1, []) ∧ SyncActive s1 p (L.erase id) := by
  refine ⟨_, fireTimer_active s p L id h hL, h.1, ?_⟩
  simp [alistGet_alistSet_same]

theorem runOps_sub_phase (p : String) (ids : List Nat) :
    ∀ (s : ModState) (L : List Nat), SyncActive s p L → L ≠ [] →
      ∃ s1, runOps s p (ids.map Op.sub) = some (s1, []) ∧ SyncActive s1 p (L ++ ids) := by
  induction ids with
  | nil =>
    intro s L h hL
    exact ⟨s, rfl, by simpa using h⟩
  | cons a rest ih =>
    intro s L h hL
    obtain ⟨s1, hstep, hact⟩ := syncActive_syncCollection s p L a h hL
    obtain ⟨s2, hrun, hact2⟩ := ih s1 (L ++ [a]) hact (by simp)
    refine ⟨s2, ?_, by simpa [List.append_assoc] using hact2⟩
    simp [runOps, opStep, hstep, hrun]

theorem runOps_fire_phase (p : String) (fires : List Nat) :
    ∀ (s : ModState) (L : List Nat), SyncActive s p L → fires.length < L.length →
      ∃ s1 L1, runOps s p (fires.map Op.fire) = some (s1, []) ∧ SyncActive s1 p L1 := by
  induction fires with
  | nil =>
    intro s L h _
    exact ⟨s, L, rfl, h⟩
  | cons f rest ih =>
    intro s L h hlen
    have herase : rest.length < (L.erase f).length := by
      have he := List.length_erase f L
      simp only [List.length_cons] at hlen
      rw [he]
      split <;> omega
    have hne : L.erase f ≠ [] := by
      intro he
      rw [he] at herase
      exact absurd herase (by simp)
    obtain ⟨s1, hstep, hact⟩ := syncActive_fireTimer s p L f h hne
    obtain ⟨s2, L2, hrun, hact2⟩ := ih s1 (L.erase f) hact herase
    refine ⟨s2, L2, ?_, hact2⟩
    simp [runOps, opStep, hstep, hrun]

theorem runOps_append (s : ModState) (p : String) (l1 l2 : List Op) :
    runOps s p (l1 ++ l2) =
      match runOps s p l1 with
      | none => none
      | some (s1, e1) =>
        match runOps s1 p l2 with
        | none => none
        | some (s2, e2) => some (s2, e1 ++ e2) := by
  induction l1 generalizing s with
  | nil =>
    simp only [List.nil_append, runOps]
    cases hr : runOps s p l2 with
    | none => rfl
    | some r2 => simp
  | cons op rest ih =>
    simp only [List.cons_append, runOps, List.append_eq]
    cases hstep : opStep s p op with
    | none => rfl
    | some r =>
      obtain ⟨s1, evs⟩ := r
      dsimp only
      rw [ih s1]
      cases hrest : runOps s1 p rest with
      | none => rfl
      | some r2 =>
        obtain ⟨s2, e2⟩ := r2
        dsimp only
        cases hl2 : runOps s2 p l2 with
        | none => rfl
        | some r3 =>
          obtain ⟨s3, e3⟩ := r3
          simp [List.append_assoc]

theorem runOps_sub_phase_from_empty (s : ModState) (p : String) (a : Nat) (rest : List Nat)
    (hc : alistGet s.collections p = none) :
    ∃ s1, runOps s p ((a :: rest).map Op.sub) = some (s1, [SyncEv.startedSync p]) ∧
      SyncActive s1 p (a :: rest) := by
  obtain ⟨s1, hstep, hact⟩ := syncActive_syncCollection_first s p a hc
  obtain ⟨s2, hrun, hact2⟩ := runOps_sub_phase p rest s1 [a] hact (by simp)
  refine ⟨s2, ?_, by simpa using hact2⟩
  simp [runOps, opStep, hstep, hrun]

/-- C4.  Ref-counted subscription with debounced teardown: `syncCollection`
appends a subscriber token, starting sync first only when the path is absent
or disabled; the debounced timer body removes exactly its own token and stops
sync only when no subscriber remains; consequently, starting from a fresh
path, N subscribes followed by N unsubscribes whose timers are still pending
and one more subscribe leave sync continuously enabled, with exactly one
listener start and no teardown in the whole trace. -/
theorem refcounted_debounced_subscription :
    (∀ (s : ModState) (p : String) (c : CollectionSyncedList) (i : CollectionsInfo)
      (id : Nat),
      alistGet s.collections p = some c → alistGet s.collectionsInfo p = some i →
      c.syncEnabled = true → i.collectionSubscribers ≠ [] →
      (syncCollection s p id).map
          (fun r => (alistGet r.1.collections p, alistGet r.1.collectionsInfo p, r.2)) =
        some (some c,
          some { i with collectionSubscribers := i.collectionSubscribers ++ [id] }, []))
    ∧
    (∀ (s : ModState) (p : String) (c : CollectionSyncedList) (i : CollectionsInfo)
      (id : Nat),
      alistGet s.collections p = some c → alistGet s.collectionsInfo p = some i →
      c.syncEnabled = false →
      (syncCollection s p id).map
          (fun r => (alistGet r.1.collections p, alistGet r.1.collectionsInfo p, r.2)) =
        some (some { c with syncEnabled := true, syncing := true },
          some { firstSync := true,
                 collectionSubscribers := i.collectionSubscribers ++ [id],
                 hasUnsubscribeFromSync := true,
                 hasUnsubscribeFromCollectionOptions := true },
          [SyncEv.startedSync p]))
    ∧
    (∀ (s : ModState) (p : String) (i : CollectionsInfo) (id : Nat),
      alistGet s.collectionsInfo p = some i →
      i.collectionSubscribers.erase id ≠ [] →
      (fireUnsubscribeTimer s p id).map
          (fun r => (alistGet r.1.collections p, alistGet r.1.collectionsInfo p, r.2)) =
        some (alistGet s.collections p,
          some { i with collectionSubscribers := i.collectionSubscribers.erase id }, []))
    ∧
    (∀ (s : ModState) (p : String) (ids : List Nat) (x : Nat),
      alistGet s.collections p = none →
      (∃ sF, runOps s p (ids.map Op.sub ++ Op.sub x :: ids.map Op.fire) =
          some (sF, [SyncEv.startedSync p]) ∧
        ∃ c, alistGet sF.collections p = some c ∧ c.syncEnabled = true) ∧
      (∀ k, 1 ≤ k →
        ∃ s1 e1, runOps s p ((ids.map Op.sub ++ Op.sub x :: ids.map Op.fire).take k) =
            some (s1, e1) ∧
          ∃ c, alistGet s1.collections p = some c ∧ c.syncEnabled = true)) := by
  refine ⟨?_, ?_, ?_, ?_⟩
  · intro s p c i id hc hi hce hne
    simp [syncCollection, hc, hi, hce, isEmpty_eq_false_of_ne_nil hne,
      alistGet_alistSet_same]
  · intro s p c i id hc hi hce
    simp [syncCollection, startCollectionSync, hc, hi, hce, setSyncStatus,
      alistGet_alistSet_same]
  · intro s p i id hi hne
    simp [fireUnsubscribeTimer, hi, isEmpty_eq_false_of_ne_nil hne, alistGet_alistSet_same]
  · intro s p ids x hc
    have hsplit : ids.map Op.sub ++ Op.sub x :: ids.map Op.fire =
        ((ids ++ [x]).map Op.sub) ++ (ids.map Op.fire) := by
      simp
    cases hlist : ids ++ [x] with
    | nil => exact absurd hlist (by simp)
    | cons a rest =>
      have hlen : rest.length = ids.length := by
        have := congrArg List.length hlist
        simp at this
        omega
      obtain ⟨s1, hrun1, hact1⟩ := runOps_sub_phase_from_empty s p a rest hc
      constructor
      · obtain ⟨s2, L2, hrun2, hact2⟩ := runOps_fire_phase p ids s1 (a :: rest) hact1
          (by simp [hlen])
        refine ⟨s2, ?_, { list := [], syncEnabled := true, syncing := true },
          hact2.1, rfl⟩
        rw [hsplit, hlist, runOps_append, hrun1]
        simp [hrun2]
      · intro k hk
        have hsub_len : ((a :: rest).map Op.sub).length = ids.length + 1 := by
          simp [hlen]
        rw [hsplit, hlist]
        rcases Nat.lt_or_ge k (ids.length + 1 + 1) with hk2 | hk2
        · -- the prefix stays inside the subscribe phase
          have htail : (ids.map Op.fire).take (k - ((a :: rest).map Op.sub).length) = [] := by
            rw [hsub_len]
            rcases le_or_lt k (ids.length + 1) with hle | hlt
            · have : k - (ids.length + 1) = 0 := by omega
              rw [this, List.take_zero]
            · omega
          rw [List.take_append_eq_append_take, htail, List.append_nil]
          cases k with
          | zero => omega
          | succ m =>
            have hmap : ((a :: rest).map Op.sub).take (m + 1) =
                (a :: rest.take m).map Op.sub := by
              simp [List.map_take]
            rw [hmap]
            obtain ⟨s3, hrun3, hact3⟩ := runOps_sub_phase_from_empty s p a (rest.take m) hc
            exact ⟨s3, [SyncEv.startedSync p], hrun3,
              { list := [], syncEnabled := true, syncing := true }, hact3.1, rfl⟩
        · -- the whole subscribe phase plus a prefix of the timer firings
          have hfull : ((a :: rest).map Op.sub).take k = (a :: rest).map Op.sub := by
            apply List.take_of_length_le
            rw [hsub_len]
            omega
          rw [List.take_append_eq_append_take, hfull]
          have hfires : (ids.map Op.fire).take (k - ((a :: rest).map Op.sub).length) =
              (ids.take (k - (ids.length + 1))).map Op.fire := by
            rw [hsub_len, List.map_take]
          rw [hfires]
          obtain ⟨s2, L2, hrun2, hact2⟩ := runOps_fire_phase p (ids.take (k - (ids.length + 1)))
            s1 (a :: rest) hact1
            (by
              have h1 : (ids.take (k - (ids.length + 1))).length ≤ ids.length := by
                simp
              simp only [List.length_cons, hlen]
              omega)
          refine ⟨s2, [SyncEv.startedSync p], ?_,
            { list := [], syncEnabled := true, syncing := true }, hact2.1, rfl⟩
          rw [runOps_append, hrun1]
          dsimp only
          rw [hrun2]
          rfl

/-- Concrete check for C4: two subscribes, an unsubscribe-timer firing for the
first subscriber, then the sequence from the scenario conjunct with one
initial subscriber — sync stays enabled and only one listener start is ever
observed. -/
theorem refcounted_debounced_subscription_witness :
    ∃ sF, runOps { collections := [], collectionsInfo := [] } "users"
        ([Op.sub 1] ++ Op.sub 2 :: [Op.fire 1]) = some (sF, [SyncEv.startedSync "users"]) ∧
      ∃ c, alistGet sF.collections "users" = some c ∧ c.syncEnabled = true := by
  have h := (refcounted_debounced_subscription.2.2.2
    { collections := [], collectionsInfo := [] } "users" [1] 2 (by rfl)).1
  simpa using h

end FCModule

namespace VuexDecorators

/-- The action key `initModuleAction` under which the synthetic root-scoped
bootstrap action is always registered. -/
def initModuleAction : String := "__initVuexModule__"

/-- One member of a module instance, as seen by `initVuexModule`: the
decorator metadata recorded under the state/getter/mutation/action symbols,
whether the member currently holds a function, whether a declared getter's
property descriptor actually has a `get`, and the member's current value
(opaque). -/
structure Member where
  propertyName : String
  stateMeta : Option String
  getterMeta : Option (String × Bool)
  mutationMeta : Option String
  actionMeta : Option (String × Bool)
  isFunction : Bool
  value : Nat

/-- The parts of `this.module` that `initVuexModule` writes.  Option-valued
fields model `undefined` before the defaulting step; the getter, mutation and
action maps are tracked through their key lists in insertion order (handler
bodies are closures and never compared by the code). -/
structure ModuleDef where
  namespaced : Option Bool
  getters : Option (List String)
  mutations : Option (List String)
  actions : Option (List String)
  modules : Option (List String)

/-- The slice of a `VuexModule` instance that `initVuexModule` reads and
writes: the `_vuexModuleInitialized` guard flag, the module definition, the
state object, and the declared members. -/
structure VMInstance where
  vuexModuleInitialized : Bool
  module : ModuleDef
  state : Option (List (String × Nat))
  members : List Member

/-- JS key assignment on a map object: overwrite in place, or append a new
key. -/
def registerKey (l : List String) (k : String) : List String :=
  if l.contains k then l else l ++ [k]

/-- The per-member branch chain of the registration loop: state members seed
the state object; getter members with a real `get` register a getter;
otherwise mutation members holding a function register a mutation; otherwise
action members holding a function register an action; anything else is
skipped. -/
def applyMember (st : List (String × Nat)) (md : ModuleDef) (mem : Member) :
    List (String × Nat) × ModuleDef :=
  match mem.stateMeta with
  | some sname => (alistSet st sname mem.value, md)
  | none =>
    match mem.getterMeta with
    | some (gname, true) =>
      (st, { md with getters := some (registerKey (md.getters.getD []) gname) })
    | _ =>
      match mem.mutationMeta, mem.isFunction with
      | some mname, true =>
        (st, { md with mutations := some (registerKey (md.mutations.getD []) mname) })
      | _, _ =>
        match mem.actionMeta, mem.isFunction with
        | some (aname, _), true =>
          (st, { md with actions := some (registerKey (md.actions.getD []) aname) })
        | _, _ => (st, md)

/-- `initVuexModule`: return immediately when `_vuexModuleInitialized` is
already set; otherwise set the flag, default the module fields and the state
object, register the synthetic bootstrap action under `initModuleAction`, and
run the registration loop over all members. -/
def initVuexModule (i : VMInstance) : VMInstance :=
  if i.vuexModuleInitialized then i
  else
    let md0 : ModuleDef :=
      { namespaced := some (i.module.namespaced.getD true),
        getters := some (i.module.getters.getD []),
        mutations := some (i.module.mutations.getD []),
        actions := some (i.module.actions.getD []),
        modules := some (i.module.modules.getD []) }
    let st0 := i.state.getD []
    let md1 := { md0 with actions := some (registerKey (md0.actions.getD []) initModuleAction) }
    let r := i.members.foldl (fun acc mem => applyMember acc.1 acc.2 mem) (st0, md1)
    { i with vuexModuleInitialized := true, module := r.2, state := some r.1 }

/-- C5.  Module compilation is idempotent: `initVuexModule` is guarded by the
`_vuexModuleInitialized` flag, so a second call on the same instance is a
no-op and the module definition — including every registered getter, mutation
and action — is exactly the one produced by the first call. -/
theorem initVuexModule_idempotent :
    (∀ i : VMInstance, initVuexModule (initVuexModule i) = initVuexModule i)
    ∧ (∀ i : VMInstance, (initVuexModule i).vuexModuleInitialized = true)
    ∧ (∀ i : VMInstance, i.vuexModuleInitialized = true → initVuexModule i = i) := by
  have hguard : ∀ i : VMInstance, i.vuexModuleInitialized = true → initVuexModule i = i := by
    intro i h
    simp [initVuexModule, h]
  have hflag : ∀ i : VMInstance, (initVuexModule i).vuexModuleInitialized = true := by
    intro i
    by_cases h : i.vuexModuleInitialized = true
    · rw [hguard i h]
      exact h
    · simp only [initVuexModule, if_neg h]
  exact ⟨fun i => hguard (initVuexModule i) (hflag i), hflag, hguard⟩

/-- Concrete check for C5: a module instance already carrying the guard flag
is returned untouched. -/
theorem initVuexModule_idempotent_witness :
    initVuexModule
      { vuexModuleInitialized := true,
        module := { namespaced := none, getters := none, mutations := none,
                    actions := none, modules := none },
        state := none, members := [] } =
      { vuexModuleInitialized := true,
        module := { namespaced := none, getters := none, mutations := none,
                    actions := none, modules := none },
        state := none, members := [] } :=
  initVuexModule_idempotent.2.2
    { vuexModuleInitialized := true,
      module := { namespaced := none, getters := none, mutations := none,
                  actions := none, modules := none },
      state := none, members := [] } (by rfl)

end VuexDecorators

namespace VuexDecorators

/-- `Map.has` on a proxy-object table. -/
def tableHasKey (m : List (String × α)) (k : String) : Bool :=
  m.any (fun p => p.1 == k)

/-- The do/while loop of `generateProxyId`, with the remaining tries as fuel
and the random draws modelled as a stream indexed by a counter: draw
`rand k`, return it when it is in neither table, otherwise decrement
`triesLeft` and retry. -/
def generateProxyIdAux (rand : Nat → String) (oldP newP : List (String × α)) :
    Nat → Nat → Except Unit (String × Nat)
  | _, 0 => .error ()
  | k, t + 1 =>
    let id := rand k
    if tableHasKey oldP id || tableHasKey newP id then
      generateProxyIdAux rand oldP newP (k + 1) t
    else .ok (id, k + 1)

/-- `generateProxyId`: at most 100 attempts, then
`throw new Error("Cannot generate a unique proxy id.")`. -/
def generateProxyId (rand : Nat → String) (oldP newP : List (String × α)) (k : Nat) :
    Except Unit (String × Nat) :=
  generateProxyIdAux rand oldP newP k 100

theorem generateProxyIdAux_ok_fresh {α : Type} (rand : Nat → String)
    (oldP newP : List (String × α)) :
    ∀ (t k : Nat) (id : String) (k2 : Nat),
      generateProxyIdAux rand oldP newP k t = .ok (id, k2) →
      tableHasKey oldP id = false ∧ tableHasKey newP id = false := by
  intro t
  induction t with
  | zero => intro k id k2 h; exact absurd h (by simp [generateProxyIdAux])
  | succ t ih =>
    intro k id k2 h
    rw [generateProxyIdAux] at h
    by_cases hcol : (tableHasKey oldP (rand k) || tableHasKey newP (rand k)) = true
    · rw [if_pos hcol] at h
      exact ih (k + 1) id k2 h
    · rw [if_neg hcol] at h
      have hfresh : (tableHasKey oldP (rand k) || tableHasKey newP (rand k)) = false :=
        Bool.not_eq_true _ |>.mp hcol
      rcases Bool.or_eq_false_iff.mp hfresh with ⟨h1, h2⟩
      cases h
      exact ⟨h1, h2⟩

theorem generateProxyIdAux_exhaust {α : Type} (rand : Nat → String)
    (oldP newP : List (String × α)) :
    ∀ (t k : Nat),
      (∀ j, j < t → (tableHasKey oldP (rand (k + j)) || tableHasKey newP (rand (k + j))) = true) →
      generateProxyIdAux rand oldP newP k t = .error () := by
  intro t
  induction t with
  | zero => intro k _; rfl
  | succ t ih =>
    intro k hcol
    rw [generateProxyIdAux]
    have h0 : (tableHasKey oldP (rand k) || tableHasKey newP (rand k)) = true := by
      have := hcol 0 (by omega)
      simpa using this
    rw [if_pos h0]
    apply ih
    intro j hj
    have := hcol (j + 1) (by omega)
    have he : k + (j + 1) = k + 1 + j := by omega
    rw [he] at this
    exact this

theorem generateProxyIdAux_find {α : Type} (rand : Nat → String)
    (oldP newP : List (String × α)) :
    ∀ (t j k : Nat), j < t →
      (tableHasKey oldP (rand (k + j)) || tableHasKey newP (rand (k + j))) = false →
      (∀ j2, j2 < j →
        (tableHasKey oldP (rand (k + j2)) || tableHasKey newP (rand (k + j2))) = true) →
      generateProxyIdAux rand oldP newP k t = .ok (rand (k + j), k + j + 1) := by
  intro t
  induction t with
  | zero => intro j k hj; omega
  | succ t ih =>
    intro j k hj hfresh hbefore
    rw [generateProxyIdAux]
    cases j with
    | zero =>
      simp only [Nat.add_zero] at hfresh
      rw [if_neg (by simp [hfresh])]
      simp
    | succ j =>
      have h0 : (tableHasKey oldP (rand k) || tableHasKey newP (rand k)) = true := by
        have := hbefore 0 (by omega)
        simpa using this
      rw [if_pos h0]
      have he : k + (j + 1) = k + 1 + j := by omega
      rw [he] at hfresh
      have hres := ih j (k + 1) (by omega) hfresh (by
        intro j2 hj2
        have := hbefore (j2 + 1) (by omega)
        have he2 : k + (j2 + 1) = k + 1 + j2 := by omega
        rw [he2] at this
        exact this)
      rw [hres]
      have he3 : k + 1 + j = k + (j + 1) := by omega
      rw [he3]

/-- C6.  Token minting is bounded: `generateProxyId` returns only a token
present in neither the previous- nor the current-generation table; if a draw
is fresh within the first 100 attempts the earliest such draw is returned,
and if all 100 draws collide the operation raises the generation error to the
caller instead of returning a duplicate. -/
theorem generateProxyId_bounded :
    (∀ {α : Type} (rand : Nat → String) (oldP newP : List (String × α)) (k : Nat)
      (id : String) (k2 : Nat),
      generateProxyId rand oldP newP k = .ok (id, k2) →
      tableHasKey oldP id = false ∧ tableHasKey newP id = false)
    ∧
    (∀ {α : Type} (rand : Nat → String) (oldP newP : List (String × α)) (k : Nat),
      (∀ j, j < 100 →
        (tableHasKey oldP (rand (k + j)) || tableHasKey newP (rand (k + j))) = true) →
      generateProxyId rand oldP newP k = .error ())
    ∧
    (∀ {α : Type} (rand : Nat → String) (oldP newP : List (String × α)) (k j : Nat),
      j < 100 →
      (tableHasKey oldP (rand (k + j)) || tableHasKey newP (rand (k + j))) = false →
      (∀ j2, j2 < j →
        (tableHasKey oldP (rand (k + j2)) || tableHasKey newP (rand (k + j2))) = true) →
      generateProxyId rand oldP newP k = .ok (rand (k + j), k + j + 1)) :=
  ⟨fun rand oldP newP k id k2 h => generateProxyIdAux_ok_fresh rand oldP newP 100 k id k2 h,
   fun rand oldP newP k h => generateProxyIdAux_exhaust rand oldP newP 100 k h,
   fun rand oldP newP k j hj h1 h2 => generateProxyIdAux_find rand oldP newP 100 j k hj h1 h2⟩

/-- Concrete check for C6: with empty tables the first draw is returned, and
with a constant colliding draw against a one-entry table the generation error
is raised. -/
theorem generateProxyId_bounded_witness :
    generateProxyId (fun _ => "t") ([] : List (String × Nat)) [] 0 = .ok ("t", 1) ∧
    generateProxyId (fun _ => "t") ([("t", 0)] : List (String × Nat)) [] 0 = .error () := by
  constructor
  · exact generateProxyId_bounded.2.2 (fun _ => "t") [] [] 0 0 (by omega) (by rfl)
      (fun j2 hj2 => absurd hj2 (by omega))
  · exact generateProxyId_bounded.2.1 (fun _ => "t") [("t", 0)] [] 0 (fun j hj => by rfl)

end VuexDecorators

namespace VuexDecorators

/-- The object-level features `isJsonIncompatible` inspects on a plain JS
object: whether it is an array, whether its prototype is `Object.prototype`,
whether it carries own symbol keys, and whether some own property descriptor
is non-configurable, non-enumerable, non-writable, an accessor on a
non-observed object, or holds a value of a disallowed `typeof`. -/
structure ObjProps where
  isArray : Bool
  protoIsObjectProto : Bool
  hasOwnSymbols : Bool
  hasBadDescriptor : Bool

/-- `isJsonIncompatible`, branch for branch. -/
def isJsonIncompatible (p : ObjProps) : Bool :=
  if p.isArray then false
  else if !p.protoIsObjectProto then true
  else if p.hasOwnSymbols then true
  else p.hasBadDescriptor

/-- A JS runtime value as seen by `initProxiesRecursively`: `undefined`,
`null`, a primitive, an object (with its descriptor-level features and its own
enumerable fields), a live wrapper from `createNonEnumerableProxy` (carries
the target symbol and the `__proxy_id` key, so `isProxy` is true), or a
tokenized-without-target structural copy (only the `__proxy_id` key survives
the clone, so `isProxyWithoutTarget` is true). -/
inductive JVal where
  | undef
  | jnull
  | prim (n : Nat)
  | obj (props : ObjProps) (fields : List (String × JVal))
  | prox (id : String) (target : JVal)
  | token (id : String)

/-- The mutable context of one `initProxiesRecursively` run: the
current-generation table `newProxyObjects`, the ghost list of tokens minted
during this run, and the position in the random stream. -/
structure WalkSt where
  newTab : List (String × JVal)
  minted : List String
  randCtr : Nat

/-- `newProxyObjects.set(id, v)`. -/
def registerNew (st : WalkSt) (id : String) (v : JVal) : WalkSt :=
  { st with newTab := alistSet st.newTab id v }

mutual

/-- `initProxiesRecursively`: live wrappers are re-registered and returned
unchanged; tokenized-without-target values are replaced by the old-table
lookup (which is `undefined` when the token is unknown) and the lookup result
is registered; JSON-incompatible objects are wrapped under a freshly minted
token; all other objects are walked field by field. -/
def initProxiesRecursively (rand : Nat → String) (oldP : List (String × JVal)) :
    JVal → WalkSt → Except Unit (JVal × WalkSt)
  | .prox id t, st => .ok (.prox id t, registerNew st id (.prox id t))
  | .token id, st =>
    match alistGet oldP id with
    | some p => .ok (p, registerNew st id p)
    | none => .ok (.undef, registerNew st id .undef)
  | .obj props fields, st =>
    if isJsonIncompatible props then
      match generateProxyId rand oldP st.newTab st.randCtr with
      | .error e => .error e
      | .ok (id, k2) =>
        .ok (.prox id (.obj props fields),
          { newTab := alistSet st.newTab id (.prox id (.obj props fields)),
            minted := st.minted ++ [id], randCtr := k2 })
    else
      match initProxFields rand oldP fields st with
      | .error e => .error e
      | .ok (fs, st2) => .ok (.obj props fs, st2)
  | .undef, st => .ok (.undef, st)
  | .jnull, st => .ok (.jnull, st)
  | .prim n, st => .ok (.prim n, st)

/-- The `for key of Object.getOwnPropertyNames(obj)` loop: walk the fields in
order, writing back every changed value. -/
def initProxFields (rand : Nat → String) (oldP : List (String × JVal)) :
    List (String × JVal) → WalkSt → Except Unit (List (String × JVal) × WalkSt)
  | [], st => .ok ([], st)
  | (k, v) :: rest, st =>
    match initProxiesRecursively rand oldP v st with
    | .error e => .error e
    | .ok (v2, st1) =>
      match initProxFields rand oldP rest st1 with
      | .error e => .error e
      | .ok (rest2, st2) => .ok ((k, v2) :: rest2, st2)

end

mutual

/-- A value is processed when it contains no tokenized-without-target node and
no bare JSON-incompatible object outside a wrapper: exactly the shape
`initProxiesRecursively` leaves behind. -/
def processedVal : JVal → Bool
  | .obj props fields => !isJsonIncompatible props && processedFields fields
  | .token _ => false
  | _ => true

def processedFields : List (String × JVal) → Bool
  | [] => true
  | (_, v) :: rest => processedVal v && processedFields rest

end

/-- Every value stored in a previous-generation proxy table is itself
processed (live wrappers, or the `undefined` left by an earlier stale
lookup). -/
def TableWF (oldP : List (String × JVal)) : Prop :=
  ∀ pr ∈ oldP, processedVal pr.2 = true

end VuexDecorators

namespace VuexDecorators

theorem mem_of_alistGet_eq_some (m : List (String × β)) (k : String) (v : β)
    (h : alistGet m k = some v) : ∃ pr, pr ∈ m ∧ pr.2 = v := by
  unfold alistGet at h
  cases hf : m.find? (fun p => p.1 == k) with
  | none => rw [hf] at h; exact absurd h (by simp)
  | some q =>
    rw [hf] at h
    simp at h
    exact ⟨q, List.mem_of_find?_eq_some hf, h⟩

theorem sizeOf_snd_lt_of_mem (fields : List (String × JVal)) (pr : String × JVal)
    (h : pr ∈ fields) : sizeOf pr.2 < sizeOf fields := by
  have h1 := List.sizeOf_lt_of_mem h
  have h2 : sizeOf pr.2 < sizeOf pr := by
    obtain ⟨a, b⟩ := pr
    simp
    try omega
  omega

theorem sizeOf_field_val_lt (props : ObjProps) (fields : List (String × JVal))
    (pr : String × JVal) (h : pr ∈ fields) : sizeOf pr.2 < sizeOf (JVal.obj props fields) := by
  have h1 := sizeOf_snd_lt_of_mem fields pr h
  have h2 : sizeOf fields < sizeOf (JVal.obj props fields) := by
    simp
    try omega
  omega

theorem initProxFields_processed (rand : Nat → String) (oldP : List (String × JVal)) :
    ∀ (fs : List (String × JVal)) (st : WalkSt) (fs2 : List (String × JVal)) (st2 : WalkSt),
      (∀ pr ∈ fs, ∀ (st3 : WalkSt) (v2 : JVal) (st4 : WalkSt),
        initProxiesRecursively rand oldP pr.2 st3 = .ok (v2, st4) → processedVal v2 = true) →
      initProxFields rand oldP fs st = .ok (fs2, st2) → processedFields fs2 = true := by
  intro fs
  induction fs with
  | nil =>
    intro st fs2 st2 _ h
    rw [initProxFields] at h
    cases h
    rfl
  | cons kv rest ih =>
    intro st fs2 st2 helem h
    obtain ⟨k, v⟩ := kv
    rw [initProxFields] at h
    cases h1 : initProxiesRecursively rand oldP v st with
    | error e => rw [h1] at h; exact absurd h (by simp)
    | ok r1 =>
      obtain ⟨v2, st1⟩ := r1
      rw [h1] at h
      dsimp only at h
      cases h2 : initProxFields rand oldP rest st1 with
      | error e => rw [h2] at h; exact absurd h (by simp)
      | ok r2 =>
        obtain ⟨rest2, st3⟩ := r2
        rw [h2] at h
        dsimp only at h
        simp only [Except.ok.injEq, Prod.mk.injEq] at h
        obtain ⟨hfs, hst⟩ := h
        subst hfs
        rw [processedFields]
        have hv := helem (k, v) (by simp) st v2 st1 h1
        have hr := ih st1 rest2 st3 (fun pr hpr => helem pr (by simp [hpr])) h2
        simp [hv, hr]

theorem initProx_processed (rand : Nat → String) (oldP : List (String × JVal))
    (hwf : TableWF oldP) :
    ∀ (v : JVal) (st : WalkSt) (v2 : JVal) (st2 : WalkSt),
      initProxiesRecursively rand oldP v st = .ok (v2, st2) → processedVal v2 = true := by
  suffices hs : ∀ (n : Nat) (v : JVal), sizeOf v ≤ n → ∀ (st : WalkSt) (v2 : JVal)
      (st2 : WalkSt),
      initProxiesRecursively rand oldP v st = .ok (v2, st2) → processedVal v2 = true by
    intro v st v2 st2 h
    exact hs (sizeOf v) v (Nat.le_refl _) st v2 st2 h
  intro n
  induction n using Nat.strong_induction_on with
  | _ n ih =>
    intro v hv st v2 st2 h
    cases v with
    | undef => rw [initProxiesRecursively] at h; cases h; rfl
    | jnull => rw [initProxiesRecursively] at h; cases h; rfl
    | prim m => rw [initProxiesRecursively] at h; cases h; rfl
    | prox id t => rw [initProxiesRecursively] at h; cases h; rfl
    | token id =>
      rw [initProxiesRecursively] at h
      cases hg : alistGet oldP id with
      | none => rw [hg] at h; dsimp only at h; cases h; rfl
      | some p =>
        rw [hg] at h
        dsimp only at h
        simp only [Except.ok.injEq, Prod.mk.injEq] at h
        obtain ⟨hpv, -⟩ := h
        rw [← hpv]
        obtain ⟨pr, hmem, hpr⟩ := mem_of_alistGet_eq_some oldP id p hg
        rw [← hpr]
        exact hwf pr hmem
    | obj props fields =>
      rw [initProxiesRecursively] at h
      by_cases hinc : isJsonIncompatible props = true
      · rw [if_pos hinc] at h
        cases hgen : generateProxyId rand oldP st.newTab st.randCtr with
        | error e => rw [hgen] at h; exact absurd h (by simp)
        | ok r =>
          obtain ⟨id, k2⟩ := r
          rw [hgen] at h
          dsimp only at h
          simp only [Except.ok.injEq, Prod.mk.injEq] at h
          obtain ⟨hveq, -⟩ := h
          rw [← hveq]
          rfl
      · rw [if_neg hinc] at h
        cases hf : initProxFields rand oldP fields st with
        | error e => rw [hf] at h; exact absurd h (by simp)
        | ok r =>
          obtain ⟨fs2, st3⟩ := r
          rw [hf] at h
          dsimp only at h
          simp only [Except.ok.injEq, Prod.mk.injEq] at h
          obtain ⟨hveq, -⟩ := h
          rw [← hveq]
          have hinc2 : isJsonIncompatible props = false := by simpa using hinc
          have hfs := initProxFields_processed rand oldP fields st fs2 st3
            (fun pr hpr st5 v3 st4 h3 => ih (sizeOf pr.2)
              (by have := sizeOf_field_val_lt props fields pr hpr; omega)
              pr.2 (Nat.le_refl _) st5 v3 st4 h3) hf
          rw [processedVal]
          simp [hinc2, hfs]

theorem initProxFields_identity (rand : Nat → String) (oldP : List (String × JVal)) :
    ∀ (fs : List (String × JVal)) (st : WalkSt),
      (∀ pr ∈ fs, ∀ (st3 : WalkSt), processedVal pr.2 = true →
        ∃ st4, initProxiesRecursively rand oldP pr.2 st3 = .ok (pr.2, st4) ∧
          st4.minted = st3.minted ∧ st4.randCtr = st3.randCtr) →
      processedFields fs = true →
      ∃ st2, initProxFields rand oldP fs st = .ok (fs, st2) ∧
        st2.minted = st.minted ∧ st2.randCtr = st.randCtr := by
  intro fs
  induction fs with
  | nil =>
    intro st _ _
    exact ⟨st, rfl, rfl, rfl⟩
  | cons kv rest ih =>
    intro st helem hproc
    obtain ⟨k, v⟩ := kv
    rw [processedFields] at hproc
    simp only [Bool.and_eq_true] at hproc
    obtain ⟨hv, hrest⟩ := hproc
    obtain ⟨st1, h1, hm1, hc1⟩ := helem (k, v) (by simp) st hv
    obtain ⟨st2, h2, hm2, hc2⟩ := ih st1
      (fun pr hpr st3 hp => helem pr (by simp [hpr]) st3 hp) hrest
    refine ⟨st2, ?_, by rw [hm2, hm1], by rw [hc2, hc1]⟩
    rw [initProxFields, h1]
    dsimp only
    rw [h2]

theorem initProx_identity (rand : Nat → String) (oldP : List (String × JVal)) :
    ∀ (v : JVal) (st : WalkSt), processedVal v = true →
      ∃ st2, initProxiesRecursively rand oldP v st = .ok (v, st2) ∧
        st2.minted = st.minted ∧ st2.randCtr = st.randCtr := by
  suffices hs : ∀ (n : Nat) (v : JVal), sizeOf v ≤ n → ∀ (st : WalkSt),
      processedVal v = true →
      ∃ st2, initProxiesRecursively rand oldP v st = .ok (v, st2) ∧
        st2.minted = st.minted ∧ st2.randCtr = st.randCtr by
    intro v st h
    exact hs (sizeOf v) v (Nat.le_refl _) st h
  intro n
  induction n using Nat.strong_induction_on with
  | _ n ih =>
    intro v hv st hproc
    cases v with
    | undef => exact ⟨st, by rw [initProxiesRecursively], rfl, rfl⟩
    | jnull => exact ⟨st, by rw [initProxiesRecursively], rfl, rfl⟩
    | prim m => exact ⟨st, by rw [initProxiesRecursively], rfl, rfl⟩
    | prox id t =>
      exact ⟨registerNew st id (.prox id t), by rw [initProxiesRecursively], rfl, rfl⟩
    | token id => exact absurd hproc (by rw [processedVal]; simp)
    | obj props fields =>
      rw [processedVal] at hproc
      simp only [Bool.and_eq_true] at hproc
      obtain ⟨hinc, hfs⟩ := hproc
      have hinc2 : isJsonIncompatible props = false := by simpa using hinc
      obtain ⟨st2, h2, hm2, hc2⟩ := initProxFields_identity rand oldP fields st
        (fun pr hpr st3 hp => ih (sizeOf pr.2)
          (by have := sizeOf_field_val_lt props fields pr hpr; omega)
          pr.2 (Nat.le_refl _) st3 hp) hfs
      refine ⟨st2, ?_, hm2, hc2⟩
      rw [initProxiesRecursively, if_neg (by simp [hinc2]), h2]

/-- C7.  Wrapping is idempotent: a live wrapper is returned unchanged with its
existing token re-registered in the current-generation table; the output of a
walk (over any table whose stored values are themselves processed) is a
processed tree; and re-running the walk on a processed tree returns the tree
unchanged, minting no token and drawing no randomness — so wrapping the same
live object twice in one generation yields the same token and creates no new
wrapper. -/
theorem initProxiesRecursively_idempotent :
    (∀ (rand : Nat → String) (oldP : List (String × JVal)) (id : String) (t : JVal)
      (st : WalkSt),
      initProxiesRecursively rand oldP (.prox id t) st =
        .ok (.prox id t, registerNew st id (.prox id t)))
    ∧
    (∀ (rand : Nat → String) (oldP : List (String × JVal)) (v : JVal) (st : WalkSt)
      (v2 : JVal) (st2 : WalkSt), TableWF oldP →
      initProxiesRecursively rand oldP v st = .ok (v2, st2) → processedVal v2 = true)
    ∧
    (∀ (rand : Nat → String) (oldP : List (String × JVal)) (v : JVal) (st : WalkSt),
      processedVal v = true →
      ∃ st2, initProxiesRecursively rand oldP v st = .ok (v, st2) ∧
        st2.minted = st.minted ∧ st2.randCtr = st.randCtr) :=
  ⟨fun rand oldP id t st => by rw [initProxiesRecursively],
   fun rand oldP v st v2 st2 hwf h => initProx_processed rand oldP hwf v st v2 st2 h,
   fun rand oldP v st h => initProx_identity rand oldP v st h⟩

/-- Concrete check for C7: re-running the walk over a processed tree — a plain
object holding a live wrapper — returns it unchanged and mints nothing. -/
theorem initProxiesRecursively_idempotent_witness :
    ∃ st2, initProxiesRecursively (fun _ => "z") []
        (JVal.obj ⟨false, true, false, false⟩ [("a", JVal.prox "p" (JVal.prim 1))])
        ⟨[], [], 0⟩ =
      .ok (JVal.obj ⟨false, true, false, false⟩ [("a", JVal.prox "p" (JVal.prim 1))], st2) ∧
      st2.minted = WalkSt.minted ⟨[], [], 0⟩ ∧ st2.randCtr = WalkSt.randCtr ⟨[], [], 0⟩ :=
  initProxiesRecursively_idempotent.2.2 (fun _ => "z") []
    (JVal.obj ⟨false, true, false, false⟩ [("a", JVal.prox "p" (JVal.prim 1))])
    ⟨[], [], 0⟩
    (by decide)

end VuexDecorators

namespace VuexDecorators

/-- C8 counterexample.  The claim says a tokenized-without-target value whose
token is absent from the previous-generation table is surfaced as a
stale-reference condition.  On the code, walking the lone token `"t"` against
an empty previous-generation table succeeds with no error: the value is
silently replaced by the `undefined` result of `oldProxyObjects.get`, which is
even registered in the current-generation table under the token. -/
theorem staleToken_counterexample :
    initProxiesRecursively (fun _ => "x") [] (.token "t")
        { newTab := [], minted := [], randCtr := 0 } =
      .ok (.undef, { newTab := [("t", JVal.undef)], minted := [], randCtr := 0 }) := by
  rw [initProxiesRecursively]
  rfl

/-- C8 amended.  When the walk meets a tokenized-without-target value whose
token is not in the previous-generation table, it does not raise or report
anything: it silently substitutes the undefined lookup result for the value,
registers that result in the current-generation table under the token, and
continues. -/
theorem staleToken_silently_replaced :
    ∀ (rand : Nat → String) (oldP : List (String × JVal)) (id : String) (st : WalkSt),
      alistGet oldP id = none →
      initProxiesRecursively rand oldP (.token id) st =
        .ok (.undef, registerNew st id .undef) := by
  intro rand oldP id st h
  rw [initProxiesRecursively, h]

/-- Concrete check for the amended C8 statement. -/
theorem staleToken_silently_replaced_witness :
    initProxiesRecursively (fun _ => "x") [("u", JVal.prim 5)] (.token "t")
        { newTab := [], minted := [], randCtr := 0 } =
      .ok (.undef, registerNew { newTab := [], minted := [], randCtr := 0 } "t" .undef) :=
  staleToken_silently_replaced (fun _ => "x") [("u", JVal.prim 5)] "t"
    { newTab := [], minted := [], randCtr := 0 } (by rfl)

end VuexDecorators

namespace VuexDecorators

/-- A value in the initial store state tree walked by
`unwrapStateRecursively`: a primitive, a plain object with own enumerable
fields, or a module marker — the `wrapState` placeholder whose
`symbols.vuexModule` key points at a module instance (identified here by an
opaque id into the module heap). -/
inductive SVal where
  | prim (n : Nat)
  | node (fields : List (String × SVal))
  | marker (mid : String)

/-- The two fields of a `VuexModule` instance that the walk reads and writes:
`namespace` (written `moduleNamespace`, since `namespace` is reserved in
Lean) and `state`. -/
structure ModuleData where
  moduleNamespace : Option String
  mstate : SVal

/-- `namespace === undefined ? propertyName : namespace + "/" + propertyName`. -/
def joinNamespace (ns : Option String) (k : String) : String :=
  match ns with
  | none => k
  | some s => s ++ "/" ++ k

mutual

/-- `unwrapStateRecursively`, with module objects held in an explicit heap
and a fuel bound on the recursion depth (the JS recursion can diverge on a
cyclic module graph; `none` models that).  A marker whose module's
`namespace` is unset gets it assigned from the namespace argument; the module
is appended to the discovered list before its own state is walked (pre-order)
with the same namespace; the marker is replaced by the walked state, which is
also written back to the module's `state`.  Plain objects are walked field by
field, extending the namespace with a slash per key. -/
def unwrapStateRecursively : Nat → List (String × ModuleData) → SVal → Option String →
    List String → Option (List (String × ModuleData) × SVal × List String)
  | 0, _, _, _, _ => none
  | _ + 1, heap, .prim n, _, mods => some (heap, .prim n, mods)
  | f + 1, heap, .marker mid, ns, mods =>
    match alistGet heap mid with
    | none => some (heap, .marker mid, mods)
    | some m =>
      let heap1 :=
        if m.moduleNamespace.isNone then
          alistSet heap mid { m with moduleNamespace := ns }
        else heap
      match unwrapStateRecursively f heap1 m.mstate ns (mods ++ [mid]) with
      | none => none
      | some (heap2, st1, mods2) =>
        let heap3 :=
          match alistGet heap2 mid with
          | some m2 => alistSet heap2 mid { m2 with mstate := st1 }
          | none => heap2
        some (heap3, st1, mods2)
  | f + 1, heap, .node fields, ns, mods =>
    match unwrapFields f heap fields ns mods with
    | none => none
    | some (heap1, fs1, mods1) => some (heap1, .node fs1, mods1)
termination_by f _ v _ _ => (f, sizeOf v)

/-- The `for propertyName in obj` loop of the walk. -/
def unwrapFields : Nat → List (String × ModuleData) → List (String × SVal) →
    Option String → List String →
    Option (List (String × ModuleData) × List (String × SVal) × List String)
  | _, heap, [], _, mods => some (heap, [], mods)
  | f, heap, (k, u) :: rest, ns, mods =>
    match unwrapStateRecursively f heap u (some (joinNamespace ns k)) mods with
    | none => none
    | some (heap1, u1, mods1) =>
      match unwrapFields f heap1 rest ns mods1 with
      | none => none
      | some (heap2, fs2, mods2) => some (heap2, (k, u1) :: fs2, mods2)
termination_by f _ fs _ _ => (f, sizeOf fs)

end

mutual

/-- A subtree containing no module marker. -/
def markerFreeVal : SVal → Bool
  | .prim _ => true
  | .marker _ => false
  | .node fields => markerFreeFields fields

def markerFreeFields : List (String × SVal) → Bool
  | [] => true
  | (_, u) :: rest => markerFreeVal u && markerFreeFields rest

end

/-- A nested chain of single-field plain objects ending in `v`. -/
def mkChainWith (ks : List String) (v : SVal) : SVal :=
  ks.foldr (fun k acc => .node [(k, acc)]) v

/-- The namespace argument in force after walking down the keys `ks` from a
position whose namespace argument is `ns`. -/
def pathNamespace (ns : Option String) : List String → Option String
  | [] => ns
  | k :: ks => pathNamespace (some (joinNamespace ns k)) ks

/-- The slash-delimited path described by the specification. -/
def slashPath : List String → Option String
  | [] => none
  | k :: ks => some (ks.foldl (fun acc k2 => acc ++ "/" ++ k2) k)

theorem pathNamespace_some (ks : List String) :
    ∀ s, pathNamespace (some s) ks = some (ks.foldl (fun acc k2 => acc ++ "/" ++ k2) s) := by
  induction ks with
  | nil => intro s; rfl
  | cons k ks ih =>
    intro s
    rw [pathNamespace, List.foldl_cons]
    exact ih (s ++ "/" ++ k)

theorem pathNamespace_none_eq_slashPath (ks : List String) :
    pathNamespace none ks = slashPath ks := by
  cases ks with
  | nil => rfl
  | cons k ks =>
    rw [pathNamespace, slashPath]
    exact pathNamespace_some ks k

end VuexDecorators

namespace VuexDecorators

theorem unwrap_acc (f : Nat) :
    (∀ (heap : List (String × ModuleData)) (v : SVal) (ns : Option String)
      (mods : List String),
      unwrapStateRecursively f heap v ns mods =
        (unwrapStateRecursively f heap v ns []).map (fun r => (r.1, r.2.1, mods ++ r.2.2)))
    ∧
    (∀ (heap : List (String × ModuleData)) (fs : List (String × SVal))
      (ns : Option String) (mods : List String),
      unwrapFields f heap fs ns mods =
        (unwrapFields f heap fs ns []).map (fun r => (r.1, r.2.1, mods ++ r.2.2))) := by
  induction f with
  | zero =>
    constructor
    · intro heap v ns mods
      rw [unwrapStateRecursively, unwrapStateRecursively]
      rfl
    · intro heap fs ns mods
      cases fs with
      | nil => simp [unwrapFields]
      | cons ku rest =>
        obtain ⟨k, u⟩ := ku
        rw [unwrapFields, unwrapFields]
        simp [unwrapStateRecursively]
  | succ f ih =>
    have hP : ∀ (heap : List (String × ModuleData)) (v : SVal) (ns : Option String)
        (mods : List String),
        unwrapStateRecursively (f + 1) heap v ns mods =
          (unwrapStateRecursively (f + 1) heap v ns []).map
            (fun r => (r.1, r.2.1, mods ++ r.2.2)) := by
      intro heap v ns mods
      cases v with
      | prim n => rw [unwrapStateRecursively, unwrapStateRecursively]; simp
      | marker mid =>
        rw [unwrapStateRecursively, unwrapStateRecursively]
        cases hg : alistGet heap mid with
        | none => simp
        | some m =>
          dsimp only
          rw [ih.1 _ m.mstate ns (mods ++ [mid]), ih.1 _ m.mstate ns ([] ++ [mid])]
          cases hbase : unwrapStateRecursively f
              (if m.moduleNamespace.isNone then
                alistSet heap mid { m with moduleNamespace := ns }
              else heap) m.mstate ns [] with
          | none => simp
          | some r2 =>
            obtain ⟨h2, st1, d⟩ := r2
            simp [List.append_assoc]
      | node fields =>
        rw [unwrapStateRecursively, unwrapStateRecursively]
        rw [ih.2 heap fields ns mods, ih.2 heap fields ns []]
        cases hbase : unwrapFields f heap fields ns [] with
        | none => simp
        | some r2 =>
          obtain ⟨h2, fs2, d⟩ := r2
          simp
    refine ⟨hP, ?_⟩
    intro heap fs ns mods
    induction fs generalizing heap mods with
    | nil => simp [unwrapFields]
    | cons ku rest ihl =>
      obtain ⟨k, u⟩ := ku
      rw [unwrapFields, unwrapFields]
      rw [hP heap u (some (joinNamespace ns k)) mods]
      cases hbase : unwrapStateRecursively (f + 1) heap u (some (joinNamespace ns k)) [] with
      | none => simp
      | some r1 =>
        obtain ⟨h1, u1, d1⟩ := r1
        dsimp only [Option.map]
        rw [ihl h1 (mods ++ d1), ihl h1 d1]
        cases hbase2 : unwrapFields (f + 1) h1 rest ns [] with
        | none => simp
        | some r2 =>
          obtain ⟨h2, fs2, d2⟩ := r2
          simp [List.append_assoc]

end VuexDecorators

namespace VuexDecorators

theorem unwrap_ns_preserved (f : Nat) :
    (∀ (heap : List (String × ModuleData)) (v : SVal) (ns : Option String)
      (mods : List String) (r : List (String × ModuleData) × SVal × List String),
      unwrapStateRecursively f heap v ns mods = some r →
      ∀ (mid : String) (m : ModuleData) (x : String),
        alistGet heap mid = some m → m.moduleNamespace = some x →
        ∃ m2, alistGet r.1 mid = some m2 ∧ m2.moduleNamespace = some x)
    ∧
    (∀ (heap : List (String × ModuleData)) (fs : List (String × SVal))
      (ns : Option String) (mods : List String)
      (r : List (String × ModuleData) × List (String × SVal) × List String),
      unwrapFields f heap fs ns mods = some r →
      ∀ (mid : String) (m : ModuleData) (x : String),
        alistGet heap mid = some m → m.moduleNamespace = some x →
        ∃ m2, alistGet r.1 mid = some m2 ∧ m2.moduleNamespace = some x) := by
  induction f with
  | zero =>
    constructor
    · intro heap v ns mods r h
      rw [unwrapStateRecursively] at h
      exact absurd h (by simp)
    · intro heap fs ns mods r h
      cases fs with
      | nil =>
        rw [unwrapFields] at h
        cases h
        intro mid m x hg hx
        exact ⟨m, hg, hx⟩
      | cons ku rest =>
        obtain ⟨k, u⟩ := ku
        rw [unwrapFields, unwrapStateRecursively] at h
        exact absurd h (by simp)
  | succ f ih =>
    have hP : ∀ (heap : List (String × ModuleData)) (v : SVal) (ns : Option String)
        (mods : List String) (r : List (String × ModuleData) × SVal × List String),
        unwrapStateRecursively (f + 1) heap v ns mods = some r →
        ∀ (mid : String) (m : ModuleData) (x : String),
          alistGet heap mid = some m → m.moduleNamespace = some x →
          ∃ m2, alistGet r.1 mid = some m2 ∧ m2.moduleNamespace = some x := by
      intro heap v ns mods r h mid m x hg hx
      cases v with
      | prim n =>
        rw [unwrapStateRecursively] at h
        cases h
        exact ⟨m, hg, hx⟩
      | marker mid2 =>
        rw [unwrapStateRecursively] at h
        cases hg2 : alistGet heap mid2 with
        | none =>
          rw [hg2] at h
          dsimp only at h
          cases h
          exact ⟨m, hg, hx⟩
        | some m2 =>
          rw [hg2] at h
          dsimp only at h
          have hheap1 : ∃ heap1,
              (if m2.moduleNamespace.isNone then
                alistSet heap mid2 { m2 with moduleNamespace := ns }
              else heap) = heap1 ∧ alistGet heap1 mid = some m := by
            by_cases heq : mid = mid2
            · subst heq
              rw [hg] at hg2
              cases hg2
              have : m.moduleNamespace.isNone = false := by rw [hx]; rfl
              rw [this]
              exact ⟨heap, by simp, hg⟩
            · split
              · exact ⟨_, rfl, by rw [alistGet_alistSet_other _ _ _ _ heq]; exact hg⟩
              · exact ⟨heap, rfl, hg⟩
          obtain ⟨heap1, hh1, hget1⟩ := hheap1
          rw [hh1] at h
          cases hinner : unwrapStateRecursively f heap1 m2.mstate ns (mods ++ [mid2]) with
          | none => rw [hinner] at h; exact absurd h (by simp)
          | some r2 =>
            obtain ⟨heap2, st1, mods2⟩ := r2
            rw [hinner] at h
            dsimp only at h
            obtain ⟨m3, hget2, hns3⟩ := ih.1 heap1 m2.mstate ns (mods ++ [mid2])
              (heap2, st1, mods2) hinner mid m x hget1 hx
            cases hg3 : alistGet heap2 mid2 with
            | none =>
              rw [hg3] at h
              dsimp only at h
              cases h
              exact ⟨m3, hget2, hns3⟩
            | some m4 =>
              rw [hg3] at h
              dsimp only at h
              cases h
              by_cases heq : mid = mid2
              · subst heq
                rw [hget2] at hg3
                cases hg3
                exact ⟨{ m3 with mstate := st1 }, by rw [alistGet_alistSet_same], hns3⟩
              · exact ⟨m3, by rw [alistGet_alistSet_other _ _ _ _ heq]; exact hget2, hns3⟩
      | node fields =>
        rw [unwrapStateRecursively] at h
        cases hf : unwrapFields f heap fields ns mods with
        | none => rw [hf] at h; exact absurd h (by simp)
        | some r2 =>
          obtain ⟨heap1, fs1, mods1⟩ := r2
          rw [hf] at h
          dsimp only at h
          cases h
          obtain ⟨m2, hget, hns⟩ := ih.2 heap fields ns mods (heap1, fs1, mods1) hf mid m x hg hx
          exact ⟨m2, hget, hns⟩
    refine ⟨hP, ?_⟩
    intro heap fs ns mods r h
    induction fs generalizing heap mods r with
    | nil =>
      rw [unwrapFields] at h
      cases h
      intro mid m x hg hx
      exact ⟨m, hg, hx⟩
    | cons ku rest ihl =>
      obtain ⟨k, u⟩ := ku
      rw [unwrapFields] at h
      cases h1 : unwrapStateRecursively (f + 1) heap u (some (joinNamespace ns k)) mods with
      | none => rw [h1] at h; exact absurd h (by simp)
      | some r1 =>
        obtain ⟨h1h, u1, d1⟩ := r1
        rw [h1] at h
        dsimp only at h
        cases h2 : unwrapFields (f + 1) h1h rest ns d1 with
        | none => rw [h2] at h; exact absurd h (by simp)
        | some r2 =>
          obtain ⟨h2h, fs2, d2⟩ := r2
          rw [h2] at h
          dsimp only at h
          cases h
          intro mid m x hg hx
          obtain ⟨m1, hget1, hns1⟩ := hP heap u (some (joinNamespace ns k)) mods
            (h1h, u1, d1) h1 mid m x hg hx
          exact ihl h1h d1 (h2h, fs2, d2) h2 mid m1 x hget1 hns1

theorem unwrap_markerFree (f : Nat) :
    (∀ (v : SVal) (heap : List (String × ModuleData)) (ns : Option String)
      (mods : List String), markerFreeVal v = true → sizeOf v < f →
      unwrapStateRecursively f heap v ns mods = some (heap, v, mods))
    ∧
    (∀ (fs : List (String × SVal)) (heap : List (String × ModuleData))
      (ns : Option String) (mods : List String),
      markerFreeFields fs = true → sizeOf fs < f →
      unwrapFields f heap fs ns mods = some (heap, fs, mods)) := by
  induction f with
  | zero =>
    constructor
    · intro v heap ns mods _ hs
      omega
    · intro fs heap ns mods _ hs
      omega
  | succ f ih =>
    have hP : ∀ (v : SVal) (heap : List (String × ModuleData)) (ns : Option String)
        (mods : List String), markerFreeVal v = true → sizeOf v < f + 1 →
        unwrapStateRecursively (f + 1) heap v ns mods = some (heap, v, mods) := by
      intro v heap ns mods hmf hs
      cases v with
      | prim n => rw [unwrapStateRecursively]
      | marker mid => exact absurd hmf (by rw [markerFreeVal]; simp)
      | node fields =>
        rw [markerFreeVal] at hmf
        have hs2 : sizeOf fields < f := by
          have : sizeOf (SVal.node fields) = 1 + sizeOf fields := by simp
          omega
        rw [unwrapStateRecursively, ih.2 fields heap ns mods hmf hs2]
    refine ⟨hP, ?_⟩
    intro fs heap ns mods hmf hs
    induction fs generalizing heap mods with
    | nil => rw [unwrapFields]
    | cons ku rest ihl =>
      obtain ⟨k, u⟩ := ku
      rw [markerFreeFields] at hmf
      simp only [Bool.and_eq_true] at hmf
      obtain ⟨hu, hrest⟩ := hmf
      have hsu : sizeOf u < f + 1 := by
        have h1 : sizeOf u < sizeOf ((k, u) :: rest) := by
          simp
          try omega
        omega
      have hsr : sizeOf rest < f + 1 := by
        have h1 : sizeOf rest < sizeOf ((k, u) :: rest) := by
          simp
          try omega
        omega
      rw [unwrapFields, hP u heap (some (joinNamespace ns k)) mods hu hsu]
      dsimp only
      rw [ihl heap mods hrest hsr]

end VuexDecorators

namespace VuexDecorators

theorem unwrap_chain :
    ∀ (ks : List String) (f : Nat) (heap : List (String × ModuleData)) (mid : String)
      (m : ModuleData) (ns : Option String) (mods : List String),
      alistGet heap mid = some m → m.moduleNamespace = none →
      markerFreeVal m.mstate = true → ks.length + sizeOf m.mstate + 1 < f →
      ∃ heap2, unwrapStateRecursively f heap (mkChainWith ks (.marker mid)) ns mods =
          some (heap2, mkChainWith ks m.mstate, mods ++ [mid]) ∧
        alistGet heap2 mid = some { m with moduleNamespace := pathNamespace ns ks } := by
  intro ks
  induction ks with
  | nil =>
    intro f heap mid m ns mods hg hns hmf hf
    cases f with
    | zero => omega
    | succ f =>
      have hcond : m.moduleNamespace.isNone = true := by rw [hns]; rfl
      have hidentity := (unwrap_markerFree f).1 m.mstate
        (alistSet heap mid { m with moduleNamespace := ns }) ns (mods ++ [mid]) hmf
        (by omega)
      refine ⟨alistSet (alistSet heap mid { m with moduleNamespace := ns }) mid
        { m with moduleNamespace := ns }, ?_, ?_⟩
      · rw [show mkChainWith [] (SVal.marker mid) = .marker mid from rfl,
          show mkChainWith [] m.mstate = m.mstate from rfl]
        rw [unwrapStateRecursively, hg]
        dsimp only
        rw [hcond]
        rw [if_pos rfl, hidentity]
        dsimp only
        rw [alistGet_alistSet_same]
      · rw [alistGet_alistSet_same]
        rfl
  | cons k ks ihk =>
    intro f heap mid m ns mods hg hns hmf hf
    cases f with
    | zero => omega
    | succ f =>
      obtain ⟨heap2, hrun, hget⟩ := ihk f heap mid m (some (joinNamespace ns k)) mods hg
        hns hmf (by simp only [List.length_cons] at hf; omega)
      refine ⟨heap2, ?_, hget⟩
      rw [show mkChainWith (k :: ks) (SVal.marker mid) =
        .node [(k, mkChainWith ks (.marker mid))] from rfl]
      rw [unwrapStateRecursively, unwrapFields, hrun]
      dsimp only
      rw [unwrapFields]
      rfl

/-- C9.  Module-tree walk correctness: the walk's discovered-module list is an
append-only accumulator (a run with accumulator `mods` equals the run from an
empty accumulator with `mods` prepended); a module whose namespace is already
assigned keeps it unchanged through any walk; a marker whose module's
namespace is unset gets it assigned from the walk position, with the module
appended before any module discovered inside its own state (pre-order); and
walking a chain of single-key objects ending in a marker assigns the
slash-delimited path of the keys walked from the root as the namespace and
replaces the marker with the module's own (recursively unwrapped) state. -/
theorem unwrapState_module_tree_walk :
    (∀ (f : Nat) (heap : List (String × ModuleData)) (v : SVal) (ns : Option String)
      (mods : List String),
      unwrapStateRecursively f heap v ns mods =
        (unwrapStateRecursively f heap v ns []).map (fun r => (r.1, r.2.1, mods ++ r.2.2)))
    ∧
    (∀ (f : Nat) (heap : List (String × ModuleData)) (v : SVal) (ns : Option String)
      (mods : List String) (r : List (String × ModuleData) × SVal × List String),
      unwrapStateRecursively f heap v ns mods = some r →
      ∀ (mid : String) (m : ModuleData) (x : String),
        alistGet heap mid = some m → m.moduleNamespace = some x →
        ∃ m2, alistGet r.1 mid = some m2 ∧ m2.moduleNamespace = some x)
    ∧
    (∀ (f : Nat) (heap : List (String × ModuleData)) (mid : String) (m : ModuleData)
      (x : String) (mods : List String)
      (r : List (String × ModuleData) × SVal × List String),
      alistGet heap mid = some m → m.moduleNamespace = none →
      unwrapStateRecursively (f + 1) heap (.marker mid) (some x) mods = some r →
      (∃ m2, alistGet r.1 mid = some m2 ∧ m2.moduleNamespace = some x) ∧
      (∃ d, r.2.2 = mods ++ mid :: d))
    ∧
    (∀ (ks : List String) (f : Nat) (heap : List (String × ModuleData)) (mid : String)
      (m : ModuleData) (mods : List String),
      alistGet heap mid = some m → m.moduleNamespace = none →
      markerFreeVal m.mstate = true → ks.length + sizeOf m.mstate + 1 < f →
      ∃ heap2, unwrapStateRecursively f heap (mkChainWith ks (.marker mid)) none mods =
          some (heap2, mkChainWith ks m.mstate, mods ++ [mid]) ∧
        alistGet heap2 mid = some { m with moduleNamespace := slashPath ks }) := by
  refine ⟨fun f heap v ns mods => (unwrap_acc f).1 heap v ns mods,
    fun f heap v ns mods r h => (unwrap_ns_preserved f).1 heap v ns mods r h, ?_, ?_⟩
  · intro f heap mid m x mods r hg hns h
    rw [unwrapStateRecursively, hg] at h
    dsimp only at h
    have hcond : m.moduleNamespace.isNone = true := by rw [hns]; rfl
    rw [hcond, if_pos rfl] at h
    cases hinner : unwrapStateRecursively f (alistSet heap mid
        { m with moduleNamespace := some x }) m.mstate (some x) (mods ++ [mid]) with
    | none => rw [hinner] at h; exact absurd h (by simp)
    | some r2 =>
      obtain ⟨heap2, st1, mods2⟩ := r2
      rw [hinner] at h
      dsimp only at h
      have hget1 : alistGet (alistSet heap mid { m with moduleNamespace := some x }) mid =
          some { m with moduleNamespace := some x } := alistGet_alistSet_same _ _ _
      obtain ⟨m2, hget2, hns2⟩ := (unwrap_ns_preserved f).1 _ m.mstate (some x)
        (mods ++ [mid]) (heap2, st1, mods2) hinner mid
        { m with moduleNamespace := some x } x hget1 rfl
      constructor
      · rw [hget2] at h
        dsimp only at h
        cases h
        exact ⟨{ m2 with mstate := st1 }, alistGet_alistSet_same _ _ _, hns2⟩
      · have hmods : ∃ d, mods2 = mods ++ mid :: d := by
          have hacc := (unwrap_acc f).1 (alistSet heap mid
            { m with moduleNamespace := some x }) m.mstate (some x) (mods ++ [mid])
          rw [hinner] at hacc
          cases hbase : unwrapStateRecursively f (alistSet heap mid
              { m with moduleNamespace := some x }) m.mstate (some x) [] with
          | none => rw [hbase] at hacc; exact absurd hacc (by simp)
          | some rb =>
            obtain ⟨hb, sb, db⟩ := rb
            rw [hbase] at hacc
            simp at hacc
            obtain ⟨h1e, h2e, h3e⟩ := hacc
            refine ⟨db, ?_⟩
            simp [h3e]
        obtain ⟨d, hd⟩ := hmods
        refine ⟨d, ?_⟩
        rw [hget2] at h
        dsimp only at h
        cases h
        exact hd
  · intro ks f heap mid m mods hg hns hmf hfuel
    obtain ⟨heap2, hrun, hget⟩ := unwrap_chain ks f heap mid m none mods hg hns hmf hfuel
    rw [pathNamespace_none_eq_slashPath] at hget
    exact ⟨heap2, hrun, hget⟩

/-- Concrete check for C9: a module at key path `a/b` with a marker-free state
gets the slash path as namespace, is the only discovered module, and the
marker is replaced by its state. -/
theorem unwrapState_module_tree_walk_witness :
    ∃ heap2, unwrapStateRecursively 10 [("m", ⟨none, SVal.prim 0⟩)]
        (mkChainWith ["a", "b"] (.marker "m")) none [] =
      some (heap2, mkChainWith ["a", "b"] (SVal.prim 0), [] ++ ["m"]) ∧
      alistGet heap2 "m" =
        some { moduleNamespace := slashPath ["a", "b"], mstate := SVal.prim 0 } :=
  unwrapState_module_tree_walk.2.2.2 ["a", "b"] 10 [("m", ⟨none, SVal.prim 0⟩)] "m"
    ⟨none, SVal.prim 0⟩ [] (by rfl) (by rfl) (by rfl) (by decide)

end VuexDecorators
